import Mathlib

/-!
Verification of the listing-resolution and fact-construction pipeline of the
Pokemon-Cards-Price-Checker repository.

Strings of the source language are sequences of Unicode code points; we model
them as `List Nat` (`PyStr`).  Machine integers do not occur; prices flow
through the pipeline untouched, so we model them as `Int`.  Fallible steps
return `Option`/`Except`.
-/

/-- A source-language string, as its sequence of Unicode code points. -/
abbrev PyStr := List Nat

/-- Code points of a Lean string literal, used to write `PyStr` constants. -/
def strCodes (s : String) : PyStr := s.toList.map Char.toNat

/-- The four confidence tiers returned by the classifier
(`ebay_staging_transform.py`): the strings "reject", "high", "medium", "low". -/
inductive Confidence where
  | reject
  | high
  | medium
  | low
deriving DecidableEq, Repr

/-- Embedding of `compute_title_match_confidence`
(`src/processing/ebay_staging_transform.py`, lines 130-149): guard clauses in
source order; `number_match` is `Optional[bool]`. -/
def compute_title_match_confidence (name_match : Bool) (number_match : Option Bool)
    (set_match : Bool) : Confidence :=
  if name_match = false then Confidence.reject
  else if number_match = some false then Confidence.reject
  else if number_match = some true then Confidence.high
  else if number_match = none ∧ set_match = true then Confidence.medium
  else Confidence.low

/-!
## Normalization helpers (`src/processing/ebay_staging_transform.py`, lines 59-93)

The source operates on Python strings with `str.lower`, `re.sub` over the
classes `\w` (word characters) and `\s` (whitespace), and `str.strip`.  We
model code points as `Nat`:

* `\s` covers the whitespace code points 32, 9, 10, 13, 11, 12;
* `\w` covers ASCII digits, letters, underscore; the Greek letter δ
  (code point 948) is the one non-ASCII word character the source treats
  specially, so the model includes it in the word class as Python does;
* `str.lower` maps the uppercase ASCII letters 65-90 to 97-122 and fixes
  everything else this model covers.
-/

/-- The Python whitespace class `\s`, restricted to the code points above. -/
def isSpaceChar (c : Nat) : Bool :=
  decide (c = 32 ∨ c = 9 ∨ c = 10 ∨ c = 13 ∨ c = 11 ∨ c = 12)

/-- The Python word class `\w`: ASCII alphanumerics, underscore, and δ. -/
def isWordChar (c : Nat) : Bool :=
  decide ((48 ≤ c ∧ c ≤ 57) ∨ (65 ≤ c ∧ c ≤ 90) ∨ (97 ≤ c ∧ c ≤ 122) ∨ c = 95 ∨ c = 948)

/-- One code point of `str.lower`. -/
def lowerChar (c : Nat) : Nat :=
  if 65 ≤ c ∧ c ≤ 90 then c + 32 else c

/-- `re.sub(r"[^\w\s]", " ", s)`: every code point outside `\w` and `\s`
becomes a space. -/
def subNonWord (s : PyStr) : PyStr :=
  s.map (fun c => if isWordChar c || isSpaceChar c then c else 32)

/-- Worker for `re.sub(r"\s+", " ", s)`: each maximal whitespace run becomes
one space; `prevSpace` records whether the previous emitted position closed a
run. -/
def collapseGo : Bool → PyStr → PyStr
  | _, [] => []
  | prevSpace, c :: cs =>
    if isSpaceChar c then
      if prevSpace then collapseGo true cs else 32 :: collapseGo true cs
    else c :: collapseGo false cs

/-- `re.sub(r"\s+", " ", s)`. -/
def collapseSpaces (s : PyStr) : PyStr := collapseGo false s

/-- Leading-whitespace removal, the left half of `str.strip`. -/
def lstripChars (s : PyStr) : PyStr := s.dropWhile isSpaceChar

/-- Trailing-whitespace removal, the right half of `str.strip`. -/
def rstripChars (s : PyStr) : PyStr := (s.reverse.dropWhile isSpaceChar).reverse

/-- `str.strip()`. -/
def stripChars (s : PyStr) : PyStr := rstripChars (lstripChars s)

/-- Embedding of `normalize_title` (`ebay_staging_transform.py`, lines 59-72):
lowercase, punctuation to spaces, collapse whitespace, strip. -/
def normalize_title (s : PyStr) : PyStr :=
  stripChars (collapseSpaces (subNonWord (s.map lowerChar)))

/-- The descriptor alternatives of the pattern
`\b(ex|gx|v|vmax|vstar|promo|alt|art|lvx)\b` in `normalize_card_name`. -/
def DESCRIPTOR_TOKENS : List PyStr :=
  [strCodes "ex", strCodes "gx", strCodes "v", strCodes "vmax", strCodes "vstar",
   strCodes "promo", strCodes "alt", strCodes "art", strCodes "lvx"]

/-- `re.sub(r"\b(ex|gx|v|vmax|vstar|promo|alt|art|lvx)\b", " ", s)`.  Because
every alternative is `\b`-delimited, a match must start at the beginning of a
maximal word-character run and cover the whole run, and the engine's
backtracking finds the alternative equal to that run whenever there is one; so
the substitution replaces exactly the maximal word runs equal to one of the
alternatives with one space. -/
def subDescriptorTokens : PyStr → PyStr
  | [] => []
  | c :: cs =>
    if isWordChar c then
      (if DESCRIPTOR_TOKENS.contains (c :: cs.takeWhile isWordChar) then [32]
       else c :: cs.takeWhile isWordChar) ++ subDescriptorTokens (cs.dropWhile isWordChar)
    else c :: subDescriptorTokens cs
termination_by s => s.length
decreasing_by
  all_goals have h := (List.dropWhile_sublist (l := cs) (p := isWordChar)).length_le
  all_goals simp only [List.length_cons]
  all_goals omega

/-- `s.replace("δ", "")`: removing every occurrence of the one-code-point
string "δ" deletes exactly the code points equal to 948. -/
def removeDelta (s : PyStr) : PyStr := s.filter (fun c => c != 948)

/-- Embedding of `normalize_card_name` (`ebay_staging_transform.py`, lines
74-87): lowercase, punctuation to spaces, drop descriptor tokens, delete δ,
collapse whitespace, strip — in source order. -/
def normalize_card_name (s : PyStr) : PyStr :=
  stripChars (collapseSpaces (removeDelta (subDescriptorTokens (subNonWord (s.map lowerChar)))))

/-- `normalize_set_name` (`ebay_staging_transform.py`, lines 89-93) delegates
to `normalize_title`. -/
def normalize_set_name (s : PyStr) : PyStr := normalize_title s

/-!
## Substring and pattern matching

Python's `needle in haystack`, `str.startswith`-style prefix matching, and the
two `re.search` uses of the staging transform (`\b(\d{1,3}/\d{1,3})\b` and
`\bpsa\s*(\d{1,2})\b`) and the filter module's
`\b(<color>)\s*foil\b` pattern.  Each `\b` before or after a
letter/digit of the pattern is the condition that the neighbouring input code
point (when there is one) is not a word character; `\s*` before a
non-whitespace pattern character consumes exactly the maximal whitespace run;
`\d{1,3}` (resp. `{1,2}`) followed by a non-digit pattern element matches
exactly the maximal digit run when that run has an admissible length, and
fails otherwise.
-/

/-- Prefix test: the first list is an initial segment of the second. -/
def isSubAt : PyStr → PyStr → Bool
  | [], _ => true
  | _ :: _, [] => false
  | n :: ns, h :: hs => n == h && isSubAt ns hs

/-- Python's `needle in haystack` substring test. -/
def pyIn (needle : PyStr) : PyStr → Bool
  | [] => isSubAt needle []
  | c :: hs => isSubAt needle (c :: hs) || pyIn needle hs

/-- Case-sensitive anchored match of a pattern literal, returning the rest of
the input on success. -/
def matchExact : PyStr → PyStr → Option PyStr
  | [], rest => some rest
  | _ :: _, [] => none
  | p :: ps, c :: cs => if c = p then matchExact ps cs else none

/-- Case-insensitive anchored match of a lowercase pattern literal
(`re.IGNORECASE`), returning the rest of the input on success. -/
def matchCI : PyStr → PyStr → Option PyStr
  | [], rest => some rest
  | _ :: _, [] => none
  | p :: ps, c :: cs => if lowerChar c = p then matchCI ps cs else none

/-- ASCII digit, the Python class `\d`. -/
def isDigitChar (c : Nat) : Bool := decide (48 ≤ c ∧ c ≤ 57)

/-- Word-boundary state: the code point before the current position, `none` at
the start of the string. -/
def prevNonWord : Option Nat → Bool
  | none => true
  | some c => !(isWordChar c)

/-- The trailing `\b` after a word character: the next code point, if any,
is not a word character. -/
def nextNonWord : PyStr → Bool
  | [] => true
  | d :: _ => !(isWordChar d)

/-!
## Non-card filter (`src/processing/ebay_filters.py`)
-/

/-- The module-level `NON_CARD_KEYWORDS` set of `ebay_filters.py` (a Python
set: the duplicated "fan made"/"fan-made" entries collapse). -/
def NON_CARD_KEYWORDS : List PyStr :=
  [strCodes "proxy", strCodes "fan art", strCodes "fanart", strCodes "fan made",
   strCodes "fan-made", strCodes "fanmade", strCodes "custom", strCodes "fake",
   strCodes "unofficial", strCodes "replica", strCodes "reprint", strCodes "sticker",
   strCodes "poster", strCodes "print", strCodes "display", strCodes "art case",
   strCodes "artwork case", strCodes "gold foil", strCodes "gold-foil",
   strCodes "goldfoil", strCodes "custom foil", strCodes "rainbow foil",
   strCodes "orange foil"]

/-- The color alternatives of `CUSTOM_FOIL_PATTERN`. -/
def CUSTOM_FOIL_COLORS : List PyStr :=
  [strCodes "gold", strCodes "silver", strCodes "orange", strCodes "blue",
   strCodes "red", strCodes "green", strCodes "pink", strCodes "purple",
   strCodes "rainbow"]

/-- Attempt of `CUSTOM_FOIL_PATTERN` (`\b(<color>)\s*foil\b`,
case-insensitive) at the current position, the leading boundary already
checked by the caller. -/
def foilMatchAt (s : PyStr) : Bool :=
  CUSTOM_FOIL_COLORS.any (fun color =>
    match matchCI color s with
    | none => false
    | some rest =>
      match matchCI (strCodes "foil") (rest.dropWhile isSpaceChar) with
      | none => false
      | some rest2 => nextNonWord rest2)

/-- Scan of `CUSTOM_FOIL_PATTERN.search`, carrying the previous code point for
the leading `\b`. -/
def foilSearch (prev : Option Nat) : PyStr → Bool
  | [] => false
  | c :: cs => (prevNonWord prev && foilMatchAt (c :: cs)) || foilSearch (some c) cs

/-- `CUSTOM_FOIL_PATTERN.search(s)` is not `None`. -/
def custom_foil_search (s : PyStr) : Bool := foilSearch none s

/-- Embedding of `is_non_card_listing` (`ebay_filters.py`, lines 39-48):
keyword containment first, then the color-foil pattern. -/
def is_non_card_listing (title_normalized : PyStr) : Bool :=
  NON_CARD_KEYWORDS.any (fun kw => pyIn kw title_normalized) ||
    custom_foil_search title_normalized

/-!
## Matching helpers and listing transform
(`src/processing/ebay_staging_transform.py`, lines 100-233)
-/

/-- Embedding of `card_name_match` (lines 100-103). -/
def card_name_match (title card_name : PyStr) : Bool :=
  pyIn (normalize_card_name card_name) (normalize_title title)

/-- Attempt of `\b(\d{1,3}/\d{1,3})\b` at the current position (leading
boundary already checked): maximal digit run of length 1-3, a slash (47),
another maximal digit run of length 1-3, then no word character. -/
def numberMatchAt (s : PyStr) : Option PyStr :=
  let d1 := s.takeWhile isDigitChar
  if d1.length = 0 ∨ 3 < d1.length then none
  else
    match s.dropWhile isDigitChar with
    | 47 :: rest2 =>
      let d2 := rest2.takeWhile isDigitChar
      if d2.length = 0 ∨ 3 < d2.length then none
      else if nextNonWord (rest2.dropWhile isDigitChar) then
        some (d1 ++ 47 :: d2)
      else none
    | _ => none

/-- Scan for the first (leftmost) match of `\b(\d{1,3}/\d{1,3})\b`. -/
def numberSearch (prev : Option Nat) : PyStr → Option PyStr
  | [] => none
  | c :: cs =>
    match (if prevNonWord prev then numberMatchAt (c :: cs) else none) with
    | some m => some m
    | none => numberSearch (some c) cs

/-- Embedding of `extract_card_number` (lines 105-107). -/
def extract_card_number (title : PyStr) : Option PyStr := numberSearch none title

/-- Embedding of `card_number_match` (lines 109-113): `none` when the raw
title holds no number, otherwise the verbatim comparison with the catalog
`card_number`. -/
def card_number_match (title card_number : PyStr) : Option Bool :=
  match extract_card_number title with
  | none => none
  | some t => some (decide (t = card_number))

/-- `int` of a digit string. -/
def digitsToNat (ds : PyStr) : Nat := ds.foldl (fun acc c => 10 * acc + (c - 48)) 0

/-- Attempt of `\bpsa\s*(\d{1,2})\b` at the current position: the literal
"psa", a maximal whitespace run, a maximal digit run of length 1-2, then no
word character; yields the numeric grade. -/
def psaMatchAt (s : PyStr) : Option Nat :=
  match matchExact (strCodes "psa") s with
  | none => none
  | some rest =>
    let rest1 := rest.dropWhile isSpaceChar
    let d := rest1.takeWhile isDigitChar
    if d.length = 0 ∨ 2 < d.length then none
    else if nextNonWord (rest1.dropWhile isDigitChar) then some (digitsToNat d)
    else none

/-- Scan for the first match of `\bpsa\s*(\d{1,2})\b`. -/
def psaSearch (prev : Option Nat) : PyStr → Option Nat
  | [] => none
  | c :: cs =>
    match (if prevNonWord prev then psaMatchAt (c :: cs) else none) with
    | some g => some g
    | none => psaSearch (some c) cs

/-- Embedding of `extract_psa_grade` (lines 120-124). -/
def extract_psa_grade (title_normalized : PyStr) : Option Nat :=
  psaSearch none title_normalized

/-- The fields of a raw `itemSummary` that the transform inspects.  The other
payload fields (price, currency, condition, images, item URL) are copied into
the staging row unchanged and are not modeled. -/
structure ItemSummary where
  itemId : Option PyStr
  title : PyStr
deriving DecidableEq, Repr

/-- The catalog fields `transform_listing` reads from its `card_row`. -/
structure CardRow where
  card_id : PyStr
  card_name : PyStr
  card_number : PyStr
  set_name : PyStr
deriving DecidableEq, Repr

/-- The computed fields of a staging row (`transform_listing`'s result
dictionary, lines 203-233), pass-through payload fields omitted. -/
structure StagingRow where
  listing_id : Option PyStr
  card_id : PyStr
  price_date : PyStr
  ingestion_date : PyStr
  title : PyStr
  title_normalized : PyStr
  is_graded : Bool
  grade_value : Option Nat
  card_number_match : Bool
  set_match : Bool
  title_match_confidence : Confidence
deriving DecidableEq, Repr

/-- The inline `NON_CARD_KEYWORDS` set of `transform_listing`
(`ebay_staging_transform.py`, line 169) — a smaller set than the one in
`ebay_filters.py`. -/
def INLINE_NON_CARD_KEYWORDS : List PyStr :=
  [strCodes "proxy", strCodes "fan art", strCodes "fanart", strCodes "custom",
   strCodes "sticker", strCodes "display", strCodes "print", strCodes "poster",
   strCodes "reprint", strCodes "fake", strCodes "unofficial", strCodes "replica",
   strCodes "art case", strCodes "artwork case"]

/-- Embedding of `transform_listing` (`ebay_staging_transform.py`, lines
155-233): `none` models the Python `return None` for a non-card listing. -/
def transform_listing (item : ItemSummary) (card_row : CardRow)
    (price_date ingestion_date : PyStr) : Option StagingRow :=
  let raw_title := item.title
  let title_normalized := normalize_title raw_title
  if INLINE_NON_CARD_KEYWORDS.any (fun kw => pyIn kw title_normalized) then none
  else
    let name_match := card_name_match title_normalized card_row.card_name
    let number_match := card_number_match raw_title card_row.card_number
    let normalized_set := normalize_set_name card_row.set_name
    let set_match := !normalized_set.isEmpty && pyIn normalized_set title_normalized
    let psa_grade := extract_psa_grade title_normalized
    some
      { listing_id := item.itemId
        card_id := card_row.card_id
        price_date := price_date
        ingestion_date := ingestion_date
        title := raw_title
        title_normalized := title_normalized
        is_graded := psa_grade.isSome
        grade_value := psa_grade
        card_number_match := number_match == some true
        set_match := set_match
        title_match_confidence :=
          compute_title_match_confidence name_match number_match set_match }

/-- One iteration of the per-item loop of `main`
(`ebay_staging_transform.py`, lines 276-287): a `none` result increments the
rejection tally, a row is appended to the output. -/
def transform_step (card_row : CardRow) (price_date ingestion_date : PyStr)
    (acc : List StagingRow × Nat) (item : ItemSummary) : List StagingRow × Nat :=
  match transform_listing item card_row price_date ingestion_date with
  | none => (acc.1, acc.2 + 1)
  | some r => (acc.1 ++ [r], acc.2)

/-- The per-item loop of `main` for one card: accumulated staging rows and the
rejection tally. -/
def transform_items (items : List ItemSummary) (card_row : CardRow)
    (price_date ingestion_date : PyStr) : List StagingRow × Nat :=
  items.foldl (transform_step card_row price_date ingestion_date) ([], 0)

/-!
## TCG price-history fact build (`src/processing/tcg_price_history_transform.py`)

Market prices flow through the transform untouched, so their cell type is
modeled as `Int`; the `pd.to_datetime(...).dt.date` conversions turn one date
representation into another and are modeled as the identity on date strings.
`SNAPSHOT_PRICE_DATE` (module level, the UTC run date) is passed as the
`snapshot_price_date` parameter.
-/

/-- The staged price columns `transform_price_history` selects
(lines 63-71). -/
structure StagedPrice where
  card_id : PyStr
  price_type : PyStr
  tcg_update_date : PyStr
  market : Int
  ingestion_date : PyStr
deriving DecidableEq, Repr

/-- A row of the `card_price_variant_master` dimension used in the join. -/
structure VariantRow where
  card_id : PyStr
  price_type : PyStr
  card_price_variant_id : Nat
deriving DecidableEq, Repr

/-- A row of the `tcg_price_history` fact (final column selection,
lines 82-91). -/
structure FactRow where
  card_id : PyStr
  card_price_variant_id : Nat
  price_date : PyStr
  tcg_update_date : PyStr
  market_price : Int
  ingestion_date : PyStr
deriving DecidableEq, Repr

/-- The dedup key `["card_id", "card_price_variant_id", "price_date"]`. -/
def factKey (r : FactRow) : PyStr × Nat × PyStr :=
  (r.card_id, r.card_price_variant_id, r.price_date)

/-- The inner merge on `["card_id", "price_type"]` (line 79) together with the
column selection and the `market` → `market_price` rename: left rows in order,
each paired with every matching dimension row in dimension order. -/
def mergeVariants (prices : List StagedPrice) (variants : List VariantRow)
    (snapshot_price_date : PyStr) : List FactRow :=
  prices.flatMap (fun p =>
    (variants.filter (fun v => v.card_id == p.card_id && v.price_type == p.price_type)).map
      (fun v =>
        { card_id := p.card_id
          card_price_variant_id := v.card_price_variant_id
          price_date := snapshot_price_date
          tcg_update_date := p.tcg_update_date
          market_price := p.market
          ingestion_date := p.ingestion_date }))

/-- `df.drop_duplicates(subset=key)` with the pandas default `keep="first"`:
the first row of each key survives, in original order. -/
def dropDupFirst : List FactRow → List FactRow
  | [] => []
  | r :: rs => r :: dropDupFirst (rs.filter (fun x => !(factKey x == factKey r)))
termination_by l => l.length
decreasing_by
  have h := (List.filter_sublist (l := rs)
    (p := fun x => !(factKey x == factKey r))).length_le
  simp only [List.length_cons]
  omega

/-- Embedding of `transform_price_history` (lines 58-97). -/
def transform_price_history (df_prices : List StagedPrice)
    (df_variant_master : List VariantRow) (snapshot_price_date : PyStr) : List FactRow :=
  dropDupFirst (mergeVariants df_prices df_variant_master snapshot_price_date)

/-- A cell of a pandas frame for schema-validation purposes; `none` in the
surrounding `Option` is a null. -/
inductive Cell where
  | str (s : PyStr)
  | int (n : Int)
deriving DecidableEq, Repr

/-- A frame as named columns of optional cells. -/
abbrev DataFrame := List (PyStr × List (Option Cell))

/-- A schema as declared column names with their nullable flag; the flag is
present in the schema files but never read by `validate_schema`. -/
abbrev Schema := List (PyStr × Bool)

/-- Embedding of `validate_schema` (lines 37-47): missing columns first, then
unexpected columns; a raised `ValueError` is the `Except.error` case. -/
def validate_schema (df : DataFrame) (schema : Schema) : Except PyStr Unit :=
  let expected := schema.map Prod.fst
  let dfCols := df.map Prod.fst
  if expected.filter (fun c => !dfCols.contains c) ≠ [] then
    Except.error (strCodes "Missing required columns")
  else if dfCols.filter (fun c => !expected.contains c) ≠ [] then
    Except.error (strCodes "Unexpected columns present")
  else
    Except.ok ()

/-- The fixed column list of the transform's final selection. -/
def FACT_COLUMNS : List PyStr :=
  [strCodes "card_id", strCodes "card_price_variant_id", strCodes "price_date",
   strCodes "tcg_update_date", strCodes "market_price", strCodes "ingestion_date"]

/-- The fact rows as a named-column frame, as handed to `validate_schema`. -/
def fact_frame (rows : List FactRow) : DataFrame :=
  [(strCodes "card_id", rows.map (fun r => some (Cell.str r.card_id))),
   (strCodes "card_price_variant_id", rows.map (fun r => some (Cell.int r.card_price_variant_id))),
   (strCodes "price_date", rows.map (fun r => some (Cell.str r.price_date))),
   (strCodes "tcg_update_date", rows.map (fun r => some (Cell.str r.tcg_update_date))),
   (strCodes "market_price", rows.map (fun r => some (Cell.int r.market_price))),
   (strCodes "ingestion_date", rows.map (fun r => some (Cell.str r.ingestion_date)))]

/-- Embedding of `main` (lines 118-139) after loading: transform, validate,
and only then write — `Except.ok rows` means the rows were persisted, an error
aborts the step with nothing persisted. -/
def price_history_main (df_prices : List StagedPrice) (df_variant_master : List VariantRow)
    (schema : Schema) (snapshot_price_date : PyStr) : Except PyStr (List FactRow) :=
  let out := transform_price_history df_prices df_variant_master snapshot_price_date
  match validate_schema (fact_frame out) schema with
  | Except.error e => Except.error e
  | Except.ok () => Except.ok out

/-- Whether two column lists name the same set of columns. -/
def sameColumnSet (xs ys : List PyStr) : Bool :=
  xs.all (fun c => ys.contains c) && ys.all (fun c => xs.contains c)

/-- Refinement definition following the claim's words (not the source): some
column declared non-nullable by the schema contains a null in the frame. -/
def hasNullInNonNullable (df : DataFrame) (schema : Schema) : Bool :=
  schema.any (fun col => !col.2 && df.any (fun dc => dc.1 == col.1 && dc.2.contains none))

/-!
## Paginated acquisition (`src/ingestion/ebay/ebay_ingest.py`, lines 118-163)

`fetch_all_items_for_query` drives `client.search_items(query, limit, offset)`
for one fixed query.  The client is modeled as a function from `(limit,
offset)` to the page payload; payloads are always JSON objects (the
`isinstance(payload, dict)` guard never fires in the model), split into the
`itemSummaries` list and the remaining non-item metadata.  The returned triple
also carries the trace of issued requests — each with its offset, its limit,
and the number of items accumulated before it — which is the observable
sequence of `search_items` calls.
-/

/-- A Browse-API page payload: the `itemSummaries` list plus the rest of the
envelope. -/
structure Page (α β : Type) where
  items : List α
  meta : β
deriving DecidableEq, Repr

/-- One issued request: its offset, its limit, and the accumulated item count
just before it. -/
structure PageReq where
  offset : Nat
  limit : Nat
  accBefore : Nat
deriving DecidableEq, Repr

/-- The `while` loop of `fetch_all_items_for_query`: the fuel is the number of
page iterations still allowed (`max_pages - pages`).  Mirrors the source: the
loop runs while accumulated < `max_results`; `limit = min(page_size,
max_results - accumulated)`; an empty page breaks before updating anything; a
nonempty page extends the accumulator and replaces the envelope; a page
shorter than its limit breaks after that update; otherwise the offset advances
by the page length. -/
def fetch_loop {α β : Type} (search : Nat → Nat → Page α β) (page_size max_results : Nat) :
    Nat → Nat → List α → Option β → List PageReq → List α × Option β × List PageReq
  | 0, _, acc, meta, trace => (acc, meta, trace)
  | fuel + 1, offset, acc, meta, trace =>
    if acc.length < max_results then
      let limit := min page_size (max_results - acc.length)
      let p := search limit offset
      let trace2 := trace ++ [⟨offset, limit, acc.length⟩]
      if p.items.isEmpty then (acc, meta, trace2)
      else if p.items.length < limit then (acc ++ p.items, some p.meta, trace2)
      else
        fetch_loop search page_size max_results fuel (offset + p.items.length)
          (acc ++ p.items) (some p.meta) trace2
    else (acc, meta, trace)

/-- Embedding of `fetch_all_items_for_query` (lines 118-163): the merged
envelope's item list, the envelope's non-item metadata (`none` when no page
ever contributed), and the request trace. -/
def fetch_all_items_for_query {α β : Type} (search : Nat → Nat → Page α β)
    (page_size max_results max_pages : Nat) : List α × Option β × List PageReq :=
  fetch_loop search page_size max_results max_pages 0 [] none []

/-!
## Catalog ingestion retry loop (`src/ingestion/pokemon_tcg_ingestion.py`,
lines 50-102) and the per-card eBay loop (`src/ingestion/ebay/ebay_ingest.py`,
lines 203-231)

One attempt of the catalog fetch either returns the page's card list (HTTP
200), raises an `HTTPError` carrying the response status, or raises a network
`RequestException`.  The attempt oracle maps the attempt index to its result;
real time (the `time.sleep` calls) is modeled by recording the slept backoff
values.
-/

/-- The result of one `requests.get` attempt for a page. -/
inductive FetchResult (α : Type) where
  | ok (cards : List α)
  | httpError (status : Nat)
  | networkError
deriving DecidableEq, Repr

/-- The retriable error classes of the source: statuses 504, 429, 404, and any
network-level `RequestException`. -/
def isTransient {α : Type} : FetchResult α → Bool
  | .ok _ => false
  | .httpError s => decide (s = 504 ∨ s = 429 ∨ s = 404)
  | .networkError => true

/-- The backoff before retry number `attempt + 1`: `wait = 5 * (attempts + 1)`
seconds (lines 82 and 93). -/
def backoff_wait (attempt : Nat) : Nat := 5 * (attempt + 1)

/-- The observable outcome of the `for attempts in range(5)` loop for one
page: collected cards, the termination flag (`done`), whether the page was
appended to `failed_pages`, the number of attempts consumed, and the backoff
waits slept between attempts. -/
structure PageOutcome (α : Type) where
  cards : List α
  done : Bool
  failedPage : Bool
  attempts : Nat
  waits : List Nat
deriving DecidableEq, Repr

/-- The attempt loop (`for attempts in range(5)`, lines 55-95) with the
post-loop `if not success` failure recording (lines 97-102): an empty card
list terminates the whole ingestion; a non-empty one succeeds; a
non-retriable HTTP status records the page as failed immediately and moves on;
a retriable status or a network error sleeps the backoff and retries; an
exhausted budget records the page as failed. -/
def run_attempts {α : Type} (resp : Nat → FetchResult α) : Nat → Nat → PageOutcome α
  | 0, _ => { cards := [], done := false, failedPage := true, attempts := 0, waits := [] }
  | budget + 1, attempt =>
    match resp attempt with
    | .ok [] => { cards := [], done := true, failedPage := false, attempts := 1, waits := [] }
    | .ok cards =>
      { cards := cards, done := false, failedPage := false, attempts := 1, waits := [] }
    | .httpError s =>
      if s = 504 ∨ s = 429 ∨ s = 404 then
        let o := run_attempts resp budget (attempt + 1)
        { o with attempts := o.attempts + 1, waits := backoff_wait attempt :: o.waits }
      else
        { cards := [], done := false, failedPage := true, attempts := 1, waits := [] }
    | .networkError =>
      let o := run_attempts resp budget (attempt + 1)
      { o with attempts := o.attempts + 1, waits := backoff_wait attempt :: o.waits }

/-- One page of the catalog ingestion: the attempt loop with budget 5. -/
def fetch_page {α : Type} (resp : Nat → FetchResult α) : PageOutcome α :=
  run_attempts resp 5 0

/-- The `while not done` page loop of the catalog ingestion, fuelled: per
page, collect the outcome, extend `all_cards`, record the page in
`failed_pages` when it failed, and always advance to the next page unless the
API signalled the end. -/
def ingest_run {α : Type} (resp : Nat → Nat → FetchResult α) :
    Nat → Nat → List α → List Nat → List α × List Nat
  | 0, _, acc, failed => (acc, failed)
  | fuel + 1, page, acc, failed =>
    let o := fetch_page (resp page)
    if o.done then (acc ++ o.cards, failed)
    else
      ingest_run resp fuel (page + 1) (acc ++ o.cards)
        (if o.failedPage then failed ++ [page] else failed)

/-- The per-card loop of the eBay ingestion `main` (lines 203-231): each card
is processed under `try/except`; a failure increments the failure count and
the loop continues with the next card. -/
def ebay_main_loop {κ ε ρ : Type} (process : κ → Except ε ρ) :
    List κ → Nat × Nat × List ρ
  | [] => (0, 0, [])
  | c :: cs =>
    let rest := ebay_main_loop process cs
    match process c with
    | .ok r => (rest.1 + 1, rest.2.1, r :: rest.2.2)
    | .error _ => (rest.1, rest.2.1 + 1, rest.2.2)

/-!
## Deterministic surrogate keys
(`src/processing/card_price_variant_master_transform.py`, lines 53-58)

`deterministic_bigint_hash` is
`int(hashlib.sha1(f"{card_id}|{variant_type}".encode("utf-8")).hexdigest(), 16)
% 10**18`.  The SHA-1 digest (FIPS 180) is implemented below over `Nat` with
explicit reduction modulo `2^32`; `hexdigest` is the 40-character lowercase
hex string of the 20-byte digest, and `int(s, 16)` parses it back.
-/

/-- Reduction to a 32-bit word. -/
def w32 (n : Nat) : Nat := n % 4294967296

/-- 32-bit left rotation of a word. -/
def rotl (k x : Nat) : Nat := ((x <<< k) ||| (x >>> (32 - k))) % 4294967296

/-- 32-bit complement. -/
def wnot (x : Nat) : Nat := x ^^^ 4294967295

/-- The SHA-1 round function. -/
def sha1_f (t b c d : Nat) : Nat :=
  if t < 20 then (b &&& c) ||| (wnot b &&& d)
  else if t < 40 then b ^^^ c ^^^ d
  else if t < 60 then (b &&& c) ||| (b &&& d) ||| (c &&& d)
  else b ^^^ c ^^^ d

/-- The SHA-1 round constants. -/
def sha1_k (t : Nat) : Nat :=
  if t < 20 then 0x5A827999
  else if t < 40 then 0x6ED9EBA1
  else if t < 60 then 0x8F1BBCDC
  else 0xCA62C1D6

/-- Big-endian 4-byte groups to 32-bit words. -/
def wordsOfBytes : List Nat → List Nat
  | b0 :: b1 :: b2 :: b3 :: rest =>
    (((b0 * 256 + b1) * 256 + b2) * 256 + b3) :: wordsOfBytes rest
  | _ => []

/-- SHA-1 padding: a 0x80 byte, zeros to 56 mod 64, and the 8-byte big-endian
bit length. -/
def sha1_pad (msg : List Nat) : List Nat :=
  msg ++ [128] ++ List.replicate ((119 - msg.length % 64) % 64) 0 ++
    [(8 * msg.length >>> 56) % 256, (8 * msg.length >>> 48) % 256,
     (8 * msg.length >>> 40) % 256, (8 * msg.length >>> 32) % 256,
     (8 * msg.length >>> 24) % 256, (8 * msg.length >>> 16) % 256,
     (8 * msg.length >>> 8) % 256, (8 * msg.length) % 256]

/-- Message-schedule expansion: appends
`rotl 1 (w[i-3] xor w[i-8] xor w[i-14] xor w[i-16])` the given number of
times. -/
def sha1_expand (ws : List Nat) : Nat → List Nat
  | 0 => ws
  | k + 1 =>
    sha1_expand
      (ws ++ [rotl 1 (((ws.getD (ws.length - 3) 0 ^^^ ws.getD (ws.length - 8) 0) ^^^
        ws.getD (ws.length - 14) 0) ^^^ ws.getD (ws.length - 16) 0)]) k

/-- The five 32-bit state words of SHA-1. -/
structure SHA1State where
  a : Nat
  b : Nat
  c : Nat
  d : Nat
  e : Nat
deriving DecidableEq, Repr

/-- One compression round. -/
def sha1_round (s : SHA1State) (tw : Nat × Nat) : SHA1State :=
  { a := w32 (rotl 5 s.a + sha1_f tw.1 s.b s.c s.d + s.e + sha1_k tw.1 + tw.2)
    b := s.a
    c := rotl 30 s.b
    d := s.c
    e := s.d }

/-- Compression of one 64-byte chunk into the running state. -/
def sha1_compress (h : SHA1State) (chunk : List Nat) : SHA1State :=
  let ws := sha1_expand (wordsOfBytes chunk) 64
  let f := ws.enum.foldl sha1_round h
  { a := w32 (h.a + f.a), b := w32 (h.b + f.b), c := w32 (h.c + f.c),
    d := w32 (h.d + f.d), e := w32 (h.e + f.e) }

/-- Splits the padded message into its 64-byte chunks (the padded length is a
multiple of 64), accumulating the current chunk. -/
def chunks64Go (cur : List Nat) : List Nat → List (List Nat)
  | [] => if cur.isEmpty then [] else [cur]
  | b :: rest =>
    if cur.length = 63 then (cur ++ [b]) :: chunks64Go [] rest
    else chunks64Go (cur ++ [b]) rest

/-- The 64-byte chunks of a byte string. -/
def chunks64 (l : List Nat) : List (List Nat) := chunks64Go [] l

/-- The SHA-1 initial state. -/
def SHA1_H0 : SHA1State :=
  { a := 0x67452301, b := 0xEFCDAB89, c := 0x98BADCFE, d := 0x10325476, e := 0xC3D2E1F0 }

/-- The SHA-1 digest of a byte string, as the 160-bit big-endian integer. -/
def sha1_digest_nat (msg : List Nat) : Nat :=
  let h := (chunks64 (sha1_pad msg)).foldl sha1_compress SHA1_H0
  (((h.a * 4294967296 + h.b) * 4294967296 + h.c) * 4294967296 + h.d) * 4294967296 + h.e

/-- One lowercase hex digit (0-9 then a-f), as a code point. -/
def hexDigitChar (n : Nat) : Nat := if n < 10 then 48 + n else 87 + n

/-- The 8 hex digits of a 32-bit word, most significant first. -/
def wordToHex (w : Nat) : List Nat :=
  [hexDigitChar ((w >>> 28) % 16), hexDigitChar ((w >>> 24) % 16),
   hexDigitChar ((w >>> 20) % 16), hexDigitChar ((w >>> 16) % 16),
   hexDigitChar ((w >>> 12) % 16), hexDigitChar ((w >>> 8) % 16),
   hexDigitChar ((w >>> 4) % 16), hexDigitChar (w % 16)]

/-- `hashlib.sha1(msg).hexdigest()`: the 40 lowercase hex digits of the
digest. -/
def sha1_hexdigest (msg : List Nat) : List Nat :=
  let h := (chunks64 (sha1_pad msg)).foldl sha1_compress SHA1_H0
  wordToHex h.a ++ wordToHex h.b ++ wordToHex h.c ++ wordToHex h.d ++ wordToHex h.e

/-- The value of a lowercase hex digit code point. -/
def hexVal (c : Nat) : Nat := if c < 58 then c - 48 else c - 87

/-- `int(s, 16)` on a lowercase hex string. -/
def parseHex (s : List Nat) : Nat := s.foldl (fun acc c => 16 * acc + hexVal c) 0

/-- UTF-8 encoding of one code point. -/
def utf8Char (n : Nat) : List Nat :=
  if n < 128 then [n]
  else if n < 2048 then [192 + n / 64, 128 + n % 64]
  else if n < 65536 then [224 + n / 4096, 128 + (n / 64) % 64, 128 + n % 64]
  else [240 + n / 262144, 128 + (n / 4096) % 64, 128 + (n / 64) % 64, 128 + n % 64]

/-- `str.encode("utf-8")`. -/
def utf8Encode (s : PyStr) : List Nat := (s.map utf8Char).flatten

/-- Embedding of `deterministic_bigint_hash`
(`card_price_variant_master_transform.py`, lines 53-58). -/
def deterministic_bigint_hash (card_id variant_type : PyStr) : Nat :=
  parseHex (sha1_hexdigest (utf8Encode (card_id ++ strCodes "|" ++ variant_type))) % 10 ^ 18

/-- Reference definition following the claim's words (not the source): the
SHA-1 digest of the UTF-8 encoding of `card_id`, the separator, and
`variant_type`, read as an integer and reduced modulo `10^18`. -/
def reference_variant_id (card_id variant_type : PyStr) : Nat :=
  sha1_digest_nat (utf8Encode (card_id ++ strCodes "|" ++ variant_type)) % 10 ^ 18

/-!
## Weekly leaderboard
(`src/processing/analytics/weekly_top_tcg_cards_transform.py`, lines 60-158)

The price partition is joined to `card_price_variant_master` (inner,
`validate="many_to_one"`: the merge succeeds only when the dimension's keys
are unique, in which case it keeps each price row with a matching variant id
exactly once — modeled as a filter) and to `card_master` (inner on `card_id`:
one copy per matching catalog row).  Only `card_id` and `market_price` feed
the aggregation.  `groupby("card_id")` sorts the group keys ascending
(pandas default `sort=True`) and takes the group maximum;
`sort_values(ascending=False)` orders by maximum price descending
(tie order unspecified, as in the source); `head(200)`; `rank = index + 1`;
then catalog metadata is re-attached with a left merge.
-/

/-- The columns of one `tcg_price_history` row that the leaderboard reads. -/
structure PriceHist where
  card_id : Nat
  card_price_variant_id : Nat
  market_price : Int
deriving DecidableEq, Repr

/-- One output row before the metadata merge. -/
structure LeaderRow where
  rank : Nat
  card_id : Nat
  max_market_price : Int
deriving DecidableEq, Repr

/-- The joined, qualifying (card_id, market_price) observations: price rows
whose variant id exists in the dimension, one copy per matching catalog
row. -/
def qualifying_rows (price_df : List PriceHist) (variant_ids : List Nat)
    (card_df : List (Nat × Nat)) : List (Nat × Int) :=
  (price_df.filter (fun r => variant_ids.contains r.card_price_variant_id)).flatMap
    (fun r => (card_df.filter (fun c => c.1 == r.card_id)).map
      (fun _ => (r.card_id, r.market_price)))

/-- `groupby("card_id", as_index=False).agg(max_market_price=("market_price",
"max"))`: distinct keys in ascending order, each with its group maximum. -/
def groupMaxByCard (rows : List (Nat × Int)) : List (Nat × Int) :=
  (((rows.map Prod.fst).dedup).mergeSort (fun a b => decide (a ≤ b))).map
    (fun k => (k, (((rows.filter (fun r => r.1 == k)).map Prod.snd).max?).getD 0))

/-- `sort_values("max_market_price", ascending=False).head(200)` with
`rank = index + 1`. -/
def rankedTop (agg : List (Nat × Int)) : List LeaderRow :=
  ((agg.mergeSort (fun a b => decide (b.2 ≤ a.2))).take 200).enum.map
    (fun ir => { rank := ir.1 + 1, card_id := ir.2.1, max_market_price := ir.2.2 })

/-- The final left merge with `card_master` on `card_id`: every ranked row is
kept (with `none` metadata when unmatched), one copy per matching catalog
row. -/
def attachMeta (rows : List LeaderRow) (card_df : List (Nat × Nat)) :
    List (LeaderRow × Option Nat) :=
  rows.flatMap (fun r =>
    match card_df.filter (fun c => c.1 == r.card_id) with
    | [] => [(r, none)]
    | ms => ms.map (fun c => (r, some c.2)))

/-- Embedding of `build_weekly_top_tcg_cards` (lines 60-158), from the loaded
frames to the rows written for the partition. -/
def build_weekly_top_tcg_cards (price_df : List PriceHist) (variant_ids : List Nat)
    (card_df : List (Nat × Nat)) : List (LeaderRow × Option Nat) :=
  attachMeta (rankedTop (groupMaxByCard (qualifying_rows price_df variant_ids card_df)))
    card_df

/-!
## Analysis-only definitions

`okAfter`, `headNotWord` and `wordRuns` are not part of the source program:
they describe canonical forms of normalized strings (no double spaces, no
leading space, the list of maximal word-character runs) and are used to state
and prove the idempotence results below.
-/

def okAfter : Bool → PyStr → Bool
  | _, [] => true
  | b, c :: cs =>
    if isSpaceChar c then decide (c = 32) && !b && okAfter true cs else okAfter false cs

def headNotWord (z : PyStr) : Prop :=
  ∀ d ds, z = d :: ds → isWordChar d = false

def wordRuns : PyStr → List PyStr
  | [] => []
  | c :: cs =>
    if isWordChar c then
      (c :: cs.takeWhile isWordChar) :: wordRuns (cs.dropWhile isWordChar)
    else wordRuns cs
termination_by s => s.length
decreasing_by
  all_goals have h := (List.dropWhile_sublist (l := cs) (p := isWordChar)).length_le
  all_goals simp only [List.length_cons]
  all_goals omega

/-!
## Theorems
-/

/-- C1: `compute_title_match_confidence` realises the precedence table: a name
mismatch rejects regardless of the other signals; a present-but-false number
match rejects regardless of set match; a present-and-true number match yields
high regardless of set match; an absent number yields medium when the set
matches and low otherwise; and every input falls in exactly one of the four
tiers. -/
theorem c1_confidence_precedence_table :
    ∀ (nm : Bool) (num : Option Bool) (sm : Bool),
      (nm = false → compute_title_match_confidence nm num sm = Confidence.reject) ∧
      (nm = true → num = some false →
        compute_title_match_confidence nm num sm = Confidence.reject) ∧
      (nm = true → num = some true →
        compute_title_match_confidence nm num sm = Confidence.high) ∧
      (nm = true → num = none → sm = true →
        compute_title_match_confidence nm num sm = Confidence.medium) ∧
      (nm = true → num = none → sm = false →
        compute_title_match_confidence nm num sm = Confidence.low) ∧
      (compute_title_match_confidence nm num sm = Confidence.reject ∨
       compute_title_match_confidence nm num sm = Confidence.high ∨
       compute_title_match_confidence nm num sm = Confidence.medium ∨
       compute_title_match_confidence nm num sm = Confidence.low) := by
  decide

/-- Witness for C1: instantiating the table at a concrete signal combination. -/
theorem c1_confidence_precedence_table_witness :
    compute_title_match_confidence true none true = Confidence.medium :=
  (c1_confidence_precedence_table true none true).2.2.2.1 rfl rfl rfl

example : normalize_title (strCodes "  Charizard!!  HOLO ") = strCodes "charizard holo" := by
  decide

example : normalize_card_name (strCodes "Charizard-EX") = strCodes "charizard" := by
  simp [normalize_card_name, strCodes, subDescriptorTokens, isWordChar, DESCRIPTOR_TOKENS,
    subNonWord, lowerChar, removeDelta, collapseSpaces, collapseGo, stripChars, lstripChars,
    rstripChars, isSpaceChar]

-- ## idempotence machinery

theorem space_not_word {c : Nat} (h : isSpaceChar c = true) : isWordChar c = false := by
  simp only [isSpaceChar, decide_eq_true_eq] at h
  simp only [isWordChar, decide_eq_false_iff_not]
  omega

theorem lowerChar_idem (c : Nat) : lowerChar (lowerChar c) = lowerChar c := by
  simp only [lowerChar]
  split_ifs <;> omega

theorem map_id_of_mem {f : Nat → Nat} {u : PyStr} (h : ∀ c ∈ u, f c = c) :
    u.map f = u := by
  induction u with
  | nil => rfl
  | cons c cs ih =>
    rw [List.map_cons, h c (List.mem_cons_self _ _),
      ih (fun d hd => h d (List.mem_cons_of_mem _ hd))]

theorem mem_subNonWord {c : Nat} {u : PyStr} (h : c ∈ subNonWord u) : c = 32 ∨ c ∈ u := by
  rcases List.mem_map.1 h with ⟨d, hd, hc⟩
  by_cases hw : (isWordChar d || isSpaceChar d) = true
  · rw [if_pos hw] at hc; exact Or.inr (hc ▸ hd)
  · rw [if_neg hw] at hc; exact Or.inl hc.symm

theorem mem_subNonWord_class {c : Nat} {u : PyStr} (h : c ∈ subNonWord u) :
    (isWordChar c || isSpaceChar c) = true := by
  rcases List.mem_map.1 h with ⟨d, hd, hc⟩
  by_cases hw : (isWordChar d || isSpaceChar d) = true
  · rw [if_pos hw] at hc; exact hc ▸ hw
  · rw [if_neg hw] at hc; subst hc; decide

theorem mem_collapseGo {c : Nat} {u : PyStr} :
    ∀ {b : Bool}, c ∈ collapseGo b u → c = 32 ∨ c ∈ u := by
  induction u with
  | nil => intro b h; simp [collapseGo] at h
  | cons d ds ih =>
    intro b h
    simp only [collapseGo] at h
    by_cases hs : isSpaceChar d = true
    · rw [if_pos hs] at h
      cases b with
      | true =>
        simp only [if_pos rfl] at h
        rcases ih h with h32 | hm
        · exact Or.inl h32
        · exact Or.inr (List.mem_cons_of_mem _ hm)
      | false =>
        simp only [Bool.false_eq_true, if_neg] at h
        rcases List.mem_cons.1 h with h32 | h2
        · exact Or.inl h32
        · rcases ih h2 with h32 | hm
          · exact Or.inl h32
          · exact Or.inr (List.mem_cons_of_mem _ hm)
    · rw [if_neg hs] at h
      rcases List.mem_cons.1 h with h1 | h2
      · exact Or.inr (h1 ▸ List.mem_cons_self _ _)
      · rcases ih h2 with h32 | hm
        · exact Or.inl h32
        · exact Or.inr (List.mem_cons_of_mem _ hm)

theorem mem_lstrip {c : Nat} {u : PyStr} (h : c ∈ lstripChars u) : c ∈ u :=
  (List.dropWhile_sublist _).mem h

theorem mem_rstrip {c : Nat} {u : PyStr} (h : c ∈ rstripChars u) : c ∈ u := by
  rw [rstripChars, List.mem_reverse] at h
  exact List.mem_reverse.1 ((List.dropWhile_sublist _).mem h)

theorem mem_strip {c : Nat} {u : PyStr} (h : c ∈ stripChars u) : c ∈ u :=
  mem_lstrip (mem_rstrip h)

-- canonical form of collapsed strings

theorem okAfter_true_elim {u : PyStr} (h : okAfter true u = true) :
    u.dropWhile isSpaceChar = u ∧ okAfter false u = true := by
  cases u with
  | nil => exact ⟨rfl, rfl⟩
  | cons c cs =>
    by_cases hs : isSpaceChar c = true
    · simp [okAfter, hs] at h
    · constructor
      · simp [List.dropWhile_cons, hs]
      · simp only [okAfter, if_neg hs] at h ⊢
        exact h

theorem collapseGo_okAfter (u : PyStr) : ∀ b, okAfter b (collapseGo b u) = true := by
  induction u with
  | nil => intro b; rfl
  | cons c cs ih =>
    intro b
    simp only [collapseGo]
    by_cases hs : isSpaceChar c = true
    · rw [if_pos hs]
      cases b with
      | true => simpa using ih true
      | false =>
        simp only [Bool.false_eq_true, if_neg]
        simp only [okAfter, if_pos (by decide : isSpaceChar 32 = true)]
        simpa using ih true
    · rw [if_neg hs]
      simp only [okAfter, if_neg hs]
      exact ih false

theorem okAfter_fix {u : PyStr} : ∀ {b : Bool}, okAfter b u = true → collapseGo b u = u := by
  induction u with
  | nil => intro b _; rfl
  | cons c cs ih =>
    intro b h
    simp only [okAfter] at h
    simp only [collapseGo]
    by_cases hs : isSpaceChar c = true
    · rw [if_pos hs] at h ⊢
      simp only [Bool.and_eq_true, decide_eq_true_eq, Bool.not_eq_true'] at h
      obtain ⟨⟨hc32, hb⟩, hrest⟩ := h
      subst hb hc32
      simp [ih hrest]
    · rw [if_neg hs] at h ⊢
      rw [ih h]

theorem okAfter_append_left {x y : PyStr} :
    ∀ {b : Bool}, okAfter b (x ++ y) = true → okAfter b x = true := by
  induction x with
  | nil => intro b _; rfl
  | cons c cs ih =>
    intro b h
    simp only [List.cons_append, okAfter] at h ⊢
    by_cases hs : isSpaceChar c = true
    · rw [if_pos hs] at h ⊢
      simp only [Bool.and_eq_true] at h ⊢
      exact ⟨h.1, ih h.2⟩
    · rw [if_neg hs] at h ⊢
      exact ih h

theorem okAfter_lstrip {u : PyStr} (h : okAfter false u = true) :
    okAfter false (lstripChars u) = true := by
  cases u with
  | nil => rfl
  | cons c cs =>
    by_cases hs : isSpaceChar c = true
    · simp only [okAfter, if_pos hs, Bool.and_eq_true] at h
      have h2 := okAfter_true_elim h.2
      rw [lstripChars, List.dropWhile_cons, if_pos hs]
      rw [show List.dropWhile isSpaceChar cs = cs from h2.1]
      exact h2.2
    · rw [lstripChars, List.dropWhile_cons, if_neg hs]
      exact h

theorem rstrip_append (u : PyStr) :
    rstripChars u ++ (u.reverse.takeWhile isSpaceChar).reverse = u := by
  rw [rstripChars, ← List.reverse_append]
  rw [List.takeWhile_append_dropWhile, List.reverse_reverse]

theorem okAfter_rstrip {u : PyStr} {b : Bool} (h : okAfter b u = true) :
    okAfter b (rstripChars u) = true := by
  have hd := rstrip_append u
  exact okAfter_append_left (hd ▸ h)

theorem dropWhile_idem (p : Nat → Bool) (u : List Nat) :
    (u.dropWhile p).dropWhile p = u.dropWhile p := by
  induction u with
  | nil => rfl
  | cons c cs ih =>
    rw [List.dropWhile_cons]
    by_cases hp : p c = true
    · rw [if_pos hp]; exact ih
    · rw [if_neg hp, List.dropWhile_cons, if_neg hp]

theorem dropWhile_head_false {p : Nat → Bool} {u w : List Nat} {c : Nat}
    (h : u.dropWhile p = c :: w) : p c = false := by
  induction u with
  | nil => simp at h
  | cons d ds ih =>
    rw [List.dropWhile_cons] at h
    by_cases hp : p d = true
    · rw [if_pos hp] at h; exact ih h
    · rw [if_neg hp] at h
      cases h
      simpa using hp

theorem lstrip_rstrip_lstrip (u : PyStr) :
    lstripChars (rstripChars (lstripChars u)) = rstripChars (lstripChars u) := by
  cases hr : rstripChars (lstripChars u) with
  | nil => rfl
  | cons c w =>
    have hd := rstrip_append (lstripChars u)
    rw [hr] at hd
    set t := (List.takeWhile isSpaceChar (lstripChars u).reverse).reverse with ht
    have hu : List.dropWhile isSpaceChar u = c :: (w ++ t) := by
      rw [← lstripChars, ← hd]
      simp
    have hc : isSpaceChar c = false := dropWhile_head_false hu
    rw [lstripChars, List.dropWhile_cons, if_neg (by simp [hc])]

theorem rstrip_idem (u : PyStr) : rstripChars (rstripChars u) = rstripChars u := by
  simp only [rstripChars, List.reverse_reverse]
  rw [dropWhile_idem]

theorem strip_idem (u : PyStr) : stripChars (stripChars u) = stripChars u := by
  simp only [stripChars]
  rw [lstrip_rstrip_lstrip, rstrip_idem]

-- characterization of normalize_title output

theorem mem_normalize_title {c : Nat} {s : PyStr} (h : c ∈ normalize_title s) :
    lowerChar c = c ∧ (isWordChar c || isSpaceChar c) = true := by
  have h1 : c ∈ collapseSpaces (subNonWord (s.map lowerChar)) := mem_strip h
  rcases mem_collapseGo h1 with h32 | h2
  · subst h32; exact ⟨by decide, by decide⟩
  · refine ⟨?_, mem_subNonWord_class h2⟩
    rcases mem_subNonWord h2 with h32 | h3
    · subst h32; decide
    · rcases List.mem_map.1 h3 with ⟨d, _, hd⟩
      rw [← hd]; exact lowerChar_idem d

theorem normalize_title_idem (s : PyStr) :
    normalize_title (normalize_title s) = normalize_title s := by
  have h1 : (normalize_title s).map lowerChar = normalize_title s :=
    map_id_of_mem (fun c hc => (mem_normalize_title hc).1)
  have h2 : subNonWord (normalize_title s) = normalize_title s :=
    map_id_of_mem (fun c hc => by
      rw [if_pos (mem_normalize_title hc).2])
  have h3 : okAfter false (normalize_title s) = true := by
    rw [normalize_title, stripChars]
    exact okAfter_rstrip (okAfter_lstrip (collapseGo_okAfter _ false))
  have h4 : collapseSpaces (normalize_title s) = normalize_title s := okAfter_fix h3
  have h5 : stripChars (normalize_title s) = normalize_title s := by
    rw [normalize_title, strip_idem]
  conv_lhs => rw [normalize_title, h1, h2, h4, h5]

-- ## word-run machinery for normalize_card_name

theorem word_not_space {c : Nat} (h : isWordChar c = true) : isSpaceChar c = false := by
  simp only [isWordChar, decide_eq_true_eq] at h
  simp only [isSpaceChar, decide_eq_false_iff_not]
  omega

theorem headNotWord_nil : headNotWord [] := by
  intro d ds h; cases h

theorem takeWhile_word_append {z : PyStr} (hz : headNotWord z) :
    ∀ cs : PyStr, (cs ++ z).takeWhile isWordChar = cs.takeWhile isWordChar ∧
      (cs ++ z).dropWhile isWordChar = cs.dropWhile isWordChar ++ z := by
  intro cs
  induction cs with
  | nil =>
    cases hzz : z with
    | nil => simp
    | cons d ds =>
      have := hz d ds hzz
      simp [List.takeWhile_cons, List.dropWhile_cons, this]
  | cons c cs ih =>
    by_cases hw : isWordChar c = true
    · simp only [List.cons_append, List.takeWhile_cons, List.dropWhile_cons, hw, if_pos]
      exact ⟨by rw [ih.1], by rw [ih.2]⟩
    · simp only [List.cons_append, List.takeWhile_cons, List.dropWhile_cons]
      rw [if_neg hw, if_neg hw, if_neg hw, if_neg hw]
      simp

theorem wordRuns_cons_notWord {c : Nat} {cs : PyStr} (h : isWordChar c = false) :
    wordRuns (c :: cs) = wordRuns cs := by
  rw [wordRuns, if_neg (by simp [h])]

theorem wordRuns_word_append {x z : PyStr} (hx : ∀ c ∈ x, isWordChar c = true)
    (hxne : x ≠ []) (hz : headNotWord z) :
    wordRuns (x ++ z) = x :: wordRuns z := by
  cases x with
  | nil => exact absurd rfl hxne
  | cons c cs =>
    have hcw : isWordChar c = true := hx c (List.mem_cons_self _ _)
    have hcsw : cs.takeWhile isWordChar = cs := by
      rw [List.takeWhile_eq_self_iff]
      exact fun d hd => hx d (List.mem_cons_of_mem _ hd)
    have hcsd : cs.dropWhile isWordChar = [] := by
      rw [List.dropWhile_eq_nil_iff]
      exact fun d hd => hx d (List.mem_cons_of_mem _ hd)
    rw [List.cons_append, wordRuns, if_pos hcw]
    rw [(takeWhile_word_append hz cs).1, (takeWhile_word_append hz cs).2, hcsw, hcsd]
    simp

theorem wordRuns_nil_of_notWord {t : PyStr} (h : ∀ c ∈ t, isWordChar c = false) :
    wordRuns t = [] := by
  induction t with
  | nil => simp [wordRuns]
  | cons c cs ih =>
    rw [wordRuns_cons_notWord (h c (List.mem_cons_self _ _))]
    exact ih (fun d hd => h d (List.mem_cons_of_mem _ hd))

theorem space_imp_notWord {t : PyStr} (ht : ∀ c ∈ t, isSpaceChar c = true) :
    ∀ c ∈ t, isWordChar c = false := by
  intro c hc
  by_contra hw
  have hwd : isWordChar c = true := by simpa using hw
  have h2 := word_not_space hwd
  have hsp := ht c hc
  rw [h2] at hsp
  cases hsp

theorem wordRuns_append_spaces {t : PyStr} (ht : ∀ c ∈ t, isSpaceChar c = true) :
    ∀ x : PyStr, wordRuns (x ++ t) = wordRuns x := by
  have htnw : headNotWord t := by
    intro d ds hdds
    exact space_imp_notWord ht d (by rw [hdds]; exact List.mem_cons_self _ _)
  intro x
  induction x using wordRuns.induct with
  | case1 =>
    have h1 : wordRuns t = [] := wordRuns_nil_of_notWord (space_imp_notWord ht)
    have h0 : wordRuns ([] : PyStr) = [] := by simp [wordRuns]
    simpa [h0] using h1
  | case2 c cs hw ih =>
    rw [List.cons_append, wordRuns, if_pos hw,
      (takeWhile_word_append htnw cs).1, (takeWhile_word_append htnw cs).2,
      wordRuns, if_pos hw, ih]
  | case3 c cs hw ih =>
    have hcw : isWordChar c = false := by simpa using hw
    rw [List.cons_append, wordRuns_cons_notWord hcw, wordRuns_cons_notWord hcw]
    exact ih

theorem collapse_word_sub (cs : PyStr) :
    collapseGo false cs = cs.takeWhile isWordChar ++ collapseGo false (cs.dropWhile isWordChar) := by
  induction cs with
  | nil => rfl
  | cons c cs ih =>
    by_cases hw : isWordChar c = true
    · have hs := word_not_space hw
      rw [List.takeWhile_cons, List.dropWhile_cons, if_pos hw, if_pos hw]
      simp only [collapseGo, hs, Bool.false_eq_true, if_neg, List.cons_append]
      rw [ih]
      simp [hs]
    · rw [List.takeWhile_cons, List.dropWhile_cons]
      rw [if_neg (by simp [hw]), if_neg (by simp [hw])]
      simp

theorem notWord_of_space {c : Nat} (h : isSpaceChar c = true) : isWordChar c = false := by
  simp only [isSpaceChar, decide_eq_true_eq] at h
  simp only [isWordChar, decide_eq_false_iff_not]
  omega

theorem headNotWord_collapseGo_false {cs : PyStr} (h : headNotWord cs) :
    headNotWord (collapseGo false cs) := by
  intro d ds hd
  cases cs with
  | nil => simp [collapseGo] at hd
  | cons c cs =>
    have hcw : isWordChar c = false := h c cs rfl
    by_cases hs : isSpaceChar c = true
    · simp only [collapseGo, if_pos hs, Bool.false_eq_true, if_neg] at hd
      cases hd
      decide
    · simp only [collapseGo, if_neg hs] at hd
      cases hd
      exact hcw

theorem headNotWord_dropWord (cs : PyStr) : headNotWord (cs.dropWhile isWordChar) := by
  intro d ds hd
  exact dropWhile_head_false hd

theorem wordRuns_collapseGo (u : PyStr) : ∀ b, wordRuns (collapseGo b u) = wordRuns u := by
  induction u using wordRuns.induct with
  | case1 => intro b; rfl
  | case2 c cs hw ih =>
    intro b
    have hs := word_not_space hw
    have hz : headNotWord (collapseGo false (cs.dropWhile isWordChar)) :=
      headNotWord_collapseGo_false (headNotWord_dropWord cs)
    have htw : ∀ d ∈ cs.takeWhile isWordChar, isWordChar d = true :=
      fun d hd => List.mem_takeWhile_imp hd
    have hsplit := collapse_word_sub cs
    have e1 : collapseGo b (c :: cs) = c :: collapseGo false cs := by
      simp [collapseGo, hs]
    rw [e1, hsplit, wordRuns, if_pos hw,
      (takeWhile_word_append hz (cs.takeWhile isWordChar)).1,
      (takeWhile_word_append hz (cs.takeWhile isWordChar)).2]
    rw [List.takeWhile_eq_self_iff.2 (fun d hd => htw d hd)]
    rw [List.dropWhile_eq_nil_iff.2 (fun d hd => htw d hd)]
    rw [List.nil_append, ih false, wordRuns, if_pos hw]
  | case3 c cs hw ih =>
    intro b
    have hcw : isWordChar c = false := by simpa using hw
    rw [wordRuns_cons_notWord hcw]
    by_cases hs : isSpaceChar c = true
    · cases b with
      | true =>
        simp only [collapseGo, if_pos hs]
        exact ih true
      | false =>
        have e : collapseGo false (c :: cs) = 32 :: collapseGo true cs := by
          simp [collapseGo, hs]
        rw [e, wordRuns_cons_notWord (by decide)]
        exact ih true
    · simp only [collapseGo, if_neg hs]
      rw [wordRuns_cons_notWord hcw]
      exact ih false

theorem wordRuns_lstrip (u : PyStr) : wordRuns (lstripChars u) = wordRuns u := by
  induction u with
  | nil => rfl
  | cons c cs ih =>
    by_cases hs : isSpaceChar c = true
    · rw [lstripChars, List.dropWhile_cons, if_pos (by simp [hs]),
        wordRuns_cons_notWord (notWord_of_space hs)]
      exact ih
    · rw [lstripChars, List.dropWhile_cons, if_neg (by simp [hs])]

theorem wordRuns_rstrip (u : PyStr) : wordRuns (rstripChars u) = wordRuns u := by
  have hd := rstrip_append u
  have ht : ∀ c ∈ (u.reverse.takeWhile isSpaceChar).reverse, isSpaceChar c = true := by
    intro c hc
    exact List.mem_takeWhile_imp (List.mem_reverse.1 hc)
  conv_rhs => rw [← hd]
  rw [wordRuns_append_spaces ht]

theorem wordRuns_strip (u : PyStr) : wordRuns (stripChars u) = wordRuns u := by
  rw [stripChars, wordRuns_rstrip, wordRuns_lstrip]

theorem subTok_nil : subDescriptorTokens [] = [] := by simp [subDescriptorTokens]

theorem headNotWord_subTok {u : PyStr} (h : headNotWord u) :
    headNotWord (subDescriptorTokens u) := by
  intro d ds hd
  cases u with
  | nil => rw [subTok_nil] at hd; cases hd
  | cons c cs =>
    have hcw : isWordChar c = false := h c cs rfl
    rw [subDescriptorTokens, if_neg (by simp [hcw])] at hd
    cases hd
    exact hcw

theorem mem_subTok {c : Nat} {u : PyStr} (h : c ∈ subDescriptorTokens u) :
    c = 32 ∨ c ∈ u := by
  induction u using subDescriptorTokens.induct with
  | case1 => rw [subTok_nil] at h; cases h
  | case2 d cs hw ih =>
    rw [subDescriptorTokens, if_pos hw] at h
    rcases List.mem_append.1 h with h1 | h2
    · by_cases hc : DESCRIPTOR_TOKENS.contains (d :: cs.takeWhile isWordChar) = true
      · rw [if_pos hc] at h1
        rcases List.mem_cons.1 h1 with h32 | hfalse
        · exact Or.inl h32
        · cases hfalse
      · rw [if_neg hc] at h1
        rcases List.mem_cons.1 h1 with hcd | htw
        · exact Or.inr (hcd ▸ List.mem_cons_self _ _)
        · exact Or.inr (List.mem_cons_of_mem _ ((List.takeWhile_sublist _).mem htw))
    · rcases ih h2 with h32 | hm
      · exact Or.inl h32
      · exact Or.inr (List.mem_cons_of_mem _ ((List.dropWhile_sublist _).mem hm))
  | case3 d cs hw ih =>
    rw [subDescriptorTokens, if_neg hw] at h
    rcases List.mem_cons.1 h with hcd | h2
    · exact Or.inr (hcd ▸ List.mem_cons_self _ _)
    · rcases ih h2 with h32 | hm
      · exact Or.inl h32
      · exact Or.inr (List.mem_cons_of_mem _ hm)

theorem subTok_runs_noToken (u : PyStr) :
    ∀ w ∈ wordRuns (subDescriptorTokens u), DESCRIPTOR_TOKENS.contains w = false := by
  induction u using subDescriptorTokens.induct with
  | case1 =>
    intro w hw
    rw [subTok_nil] at hw
    simp [wordRuns] at hw
  | case2 c cs hw ih =>
    intro w hmem
    rw [subDescriptorTokens, if_pos hw] at hmem
    have hz : headNotWord (subDescriptorTokens (cs.dropWhile isWordChar)) :=
      headNotWord_subTok (headNotWord_dropWord cs)
    by_cases hc : DESCRIPTOR_TOKENS.contains (c :: cs.takeWhile isWordChar) = true
    · rw [if_pos hc] at hmem
      rw [show ([32] : PyStr) ++ subDescriptorTokens (cs.dropWhile isWordChar) =
          32 :: subDescriptorTokens (cs.dropWhile isWordChar) from rfl,
        wordRuns_cons_notWord (by decide)] at hmem
      exact ih w hmem
    · rw [if_neg hc] at hmem
      rw [wordRuns_word_append
        (fun d hd => by
          rcases List.mem_cons.1 hd with h1 | h2
          · exact h1 ▸ hw
          · exact List.mem_takeWhile_imp h2)
        (by simp) hz] at hmem
      rcases List.mem_cons.1 hmem with h1 | h2
      · rw [h1]
        simpa using hc
      · exact ih w h2
  | case3 c cs hw ih =>
    intro w hmem
    rw [subDescriptorTokens, if_neg hw,
      wordRuns_cons_notWord (by simpa using hw)] at hmem
    exact ih w hmem

theorem subTok_id_of_runs (u : PyStr)
    (h : ∀ w ∈ wordRuns u, DESCRIPTOR_TOKENS.contains w = false) :
    subDescriptorTokens u = u := by
  induction u using subDescriptorTokens.induct with
  | case1 => exact subTok_nil
  | case2 c cs hw ih =>
    have hrun : wordRuns (c :: cs) =
        (c :: cs.takeWhile isWordChar) :: wordRuns (cs.dropWhile isWordChar) := by
      rw [wordRuns, if_pos hw]
    have hc : DESCRIPTOR_TOKENS.contains (c :: cs.takeWhile isWordChar) = false :=
      h _ (by rw [hrun]; exact List.mem_cons_self _ _)
    rw [subDescriptorTokens, if_pos hw, if_neg (by rw [hc]; simp)]
    rw [ih (fun w hwm => h w (by rw [hrun]; exact List.mem_cons_of_mem _ hwm))]
    rw [List.cons_append, List.takeWhile_append_dropWhile]
  | case3 c cs hw ih =>
    have hcw : isWordChar c = false := by simpa using hw
    rw [subDescriptorTokens, if_neg hw,
      ih (fun w hwm => h w (by rw [wordRuns_cons_notWord hcw]; exact hwm))]

theorem lowerChar_eq_948 {d : Nat} (h : lowerChar d = 948) : d = 948 := by
  simp only [lowerChar] at h
  split_ifs at h <;> omega

theorem mem_normalize_card_name {c : Nat} {s : PyStr} (h : c ∈ normalize_card_name s) :
    lowerChar c = c ∧ (isWordChar c || isSpaceChar c) = true ∧ c ≠ 948 := by
  have h1 : c ∈ collapseSpaces (removeDelta (subDescriptorTokens (subNonWord (s.map lowerChar)))) :=
    mem_strip h
  rcases mem_collapseGo h1 with h32 | h2
  · subst h32; exact ⟨by decide, by decide, by decide⟩
  · have hne : c ≠ 948 := by simpa using (List.mem_filter.1 h2).2
    have h3 : c ∈ subDescriptorTokens (subNonWord (s.map lowerChar)) := (List.mem_filter.1 h2).1
    rcases mem_subTok h3 with h32 | h4
    · subst h32; exact ⟨by decide, by decide, by decide⟩
    · refine ⟨?_, mem_subNonWord_class h4, hne⟩
      rcases mem_subNonWord h4 with h32 | h5
      · subst h32; decide
      · rcases List.mem_map.1 h5 with ⟨d, _, hd⟩
        rw [← hd]
        exact lowerChar_idem d

theorem no948_subTok {s : PyStr} (h948 : 948 ∉ s) :
    948 ∉ subDescriptorTokens (subNonWord (s.map lowerChar)) := by
  intro hmem
  rcases mem_subTok hmem with h32 | h2
  · cases h32
  · rcases mem_subNonWord h2 with h32 | h3
    · cases h32
    · rcases List.mem_map.1 h3 with ⟨d, hd, hld⟩
      exact h948 ((lowerChar_eq_948 hld) ▸ hd)

theorem removeDelta_id {v : PyStr} (h : 948 ∉ v) : removeDelta v = v :=
  List.filter_eq_self.2 (fun c hc => by
    simp only [bne_iff_ne, ne_eq]
    exact fun he => h (he ▸ hc))

theorem normalize_card_name_idem {s : PyStr} (h948 : 948 ∉ s) :
    normalize_card_name (normalize_card_name s) = normalize_card_name s := by
  have h1 : (normalize_card_name s).map lowerChar = normalize_card_name s :=
    map_id_of_mem (fun c hc => (mem_normalize_card_name hc).1)
  have h2 : subNonWord (normalize_card_name s) = normalize_card_name s :=
    map_id_of_mem (fun c hc => by rw [if_pos (mem_normalize_card_name hc).2.1])
  have hrm : removeDelta (subDescriptorTokens (subNonWord (s.map lowerChar))) =
      subDescriptorTokens (subNonWord (s.map lowerChar)) :=
    removeDelta_id (no948_subTok h948)
  have hruns : ∀ w ∈ wordRuns (normalize_card_name s),
      DESCRIPTOR_TOKENS.contains w = false := by
    intro w hw
    rw [normalize_card_name, wordRuns_strip, collapseSpaces,
      wordRuns_collapseGo _ false, hrm] at hw
    exact subTok_runs_noToken _ w hw
  have h3 : subDescriptorTokens (normalize_card_name s) = normalize_card_name s :=
    subTok_id_of_runs _ hruns
  have h4 : removeDelta (normalize_card_name s) = normalize_card_name s :=
    removeDelta_id (fun hmem => (mem_normalize_card_name hmem).2.2 rfl)
  have h5 : okAfter false (normalize_card_name s) = true := by
    rw [normalize_card_name, stripChars]
    exact okAfter_rstrip (okAfter_lstrip (collapseGo_okAfter _ false))
  have h6 : collapseSpaces (normalize_card_name s) = normalize_card_name s := okAfter_fix h5
  have h7 : stripChars (normalize_card_name s) = normalize_card_name s := by
    rw [normalize_card_name, strip_idem]
  conv_lhs => rw [normalize_card_name, h1, h2, h3, h4, h6, h7]

/-- C9 counterexample: `normalize_card_name` is not idempotent.  On the
two-letter-plus-δ input "exδ" the first pass deletes the δ after the
descriptor-token pass has already run, leaving the bare descriptor "ex"; the
second pass then deletes "ex" as a token, so the results differ. -/
theorem c9_normalize_card_name_not_idempotent :
    normalize_card_name (normalize_card_name (strCodes "exδ")) ≠
      normalize_card_name (strCodes "exδ") := by
  simp [normalize_card_name, strCodes, subDescriptorTokens, isWordChar, DESCRIPTOR_TOKENS,
    subNonWord, lowerChar, removeDelta, collapseSpaces, collapseGo, stripChars, lstripChars,
    rstripChars, isSpaceChar]

example : normalize_card_name (strCodes "exδ") = strCodes "ex" := by
  simp [normalize_card_name, strCodes, subDescriptorTokens, isWordChar, DESCRIPTOR_TOKENS,
    subNonWord, lowerChar, removeDelta, collapseSpaces, collapseGo, stripChars, lstripChars,
    rstripChars, isSpaceChar]

example : normalize_card_name (strCodes "ex") = strCodes "" := by
  simp [normalize_card_name, strCodes, subDescriptorTokens, isWordChar, DESCRIPTOR_TOKENS,
    subNonWord, lowerChar, removeDelta, collapseSpaces, collapseGo, stripChars, lstripChars,
    rstripChars, isSpaceChar]

/-- C9 (amended): both normalizers are pure functions of their input;
`normalize_title` is idempotent on every string, while `normalize_card_name`
is idempotent on every string that does not contain the code point δ (948) —
on strings containing δ the δ-deletion step can splice two fragments into a
descriptor token that only the second pass removes. -/
theorem c9_normalize_idempotent_amended (s : PyStr) :
    normalize_title (normalize_title s) = normalize_title s ∧
      (948 ∉ s →
        normalize_card_name (normalize_card_name s) = normalize_card_name s) :=
  ⟨normalize_title_idem s, fun h948 => normalize_card_name_idem h948⟩

/-- Witness for C9 (amended) at a concrete δ-free card name. -/
theorem c9_normalize_idempotent_amended_witness :
    (948 ∉ strCodes "Charizard-EX") ∧
      normalize_card_name (normalize_card_name (strCodes "Charizard-EX")) =
        normalize_card_name (strCodes "Charizard-EX") :=
  ⟨by decide, (c9_normalize_idempotent_amended (strCodes "Charizard-EX")).2 (by decide)⟩

/-!
## C4 and C10: the non-card filter and row retention
-/

theorem transform_step_count (card : CardRow) (pd igd : PyStr) (items : List ItemSummary) :
    ∀ acc : List StagingRow × Nat,
      (items.foldl (transform_step card pd igd) acc).1.length +
        (items.foldl (transform_step card pd igd) acc).2 =
      acc.1.length + acc.2 + items.length := by
  induction items with
  | nil => intro acc; simp
  | cons item rest ih =>
    intro acc
    rw [List.foldl_cons]
    rw [ih]
    cases h : transform_listing item card pd igd with
    | none => simp [transform_step, h]; omega
    | some r => simp [transform_step, h]; omega

theorem transform_listing_none_iff (item : ItemSummary) (card : CardRow) (pd igd : PyStr) :
    transform_listing item card pd igd = none ↔
      ∃ kw ∈ INLINE_NON_CARD_KEYWORDS, pyIn kw (normalize_title item.title) = true := by
  by_cases h : INLINE_NON_CARD_KEYWORDS.any (fun kw => pyIn kw (normalize_title item.title)) = true
  · rw [transform_listing, if_pos h]
    simpa using List.any_eq_true.1 h
  · rw [transform_listing, if_neg h]
    simp only [reduceCtorEq, false_iff]
    intro hex
    exact h (List.any_eq_true.2 hex)

/-- C4 counterexample: a "silver foil" listing is matched by
`is_non_card_listing`, yet `transform_listing` still produces a staging row
for it — the transform never calls the filter module and its inline keyword
set has no color-foil entries. -/
theorem c4_filter_not_applied_counterexample :
    is_non_card_listing (normalize_title (strCodes "Silver Foil Pikachu")) = true ∧
      (transform_listing ⟨some (strCodes "v1|0"), strCodes "Silver Foil Pikachu"⟩
        ⟨strCodes "base1-58", strCodes "Pikachu", strCodes "58/102", strCodes "Jungle"⟩
        (strCodes "2025-01-05") (strCodes "2025-01-06")).isSome = true := by
  constructor
  · decide
  · decide

/-- C4 (amended): `is_non_card_listing` returns true exactly when the
normalized title contains one of the module's `NON_CARD_KEYWORDS` or matches
the color-foil pattern; but the staging transform never invokes it — the
transform drops exactly the listings whose normalized title contains one of
its own smaller inline keyword set (no foil entries, no fan-made variants),
and every dropped listing is counted in the run's rejection tally. -/
theorem c4_non_card_filter_amended :
    (∀ t : PyStr,
      is_non_card_listing t = true ↔
        ((∃ kw ∈ NON_CARD_KEYWORDS, pyIn kw t = true) ∨ custom_foil_search t = true)) ∧
    (∀ (item : ItemSummary) (card : CardRow) (pd igd : PyStr),
      transform_listing item card pd igd = none ↔
        ∃ kw ∈ INLINE_NON_CARD_KEYWORDS, pyIn kw (normalize_title item.title) = true) ∧
    (∀ (items : List ItemSummary) (card : CardRow) (pd igd : PyStr),
      (transform_items items card pd igd).1.length +
          (transform_items items card pd igd).2 = items.length) := by
  refine ⟨?_, ?_, ?_⟩
  · intro t
    rw [is_non_card_listing, Bool.or_eq_true, List.any_eq_true]
  · exact transform_listing_none_iff
  · intro items card pd igd
    have h := transform_step_count card pd igd items ([], 0)
    simpa [transform_items] using h

set_option maxHeartbeats 2000000 in
/-- C10: a listing that passes the inline non-card keyword check always yields
exactly one staging row — rows classified reject or low are retained and
tagged with their tier, never dropped; a non-card listing yields an absent
result (not an error) and is counted in the rejection tally. -/
theorem c10_reject_and_low_rows_retained :
    (∀ (item : ItemSummary) (card : CardRow) (pd igd : PyStr),
      (transform_listing item card pd igd).isSome = true ↔
        ∀ kw ∈ INLINE_NON_CARD_KEYWORDS, pyIn kw (normalize_title item.title) = false) ∧
    (∀ (item : ItemSummary) (card : CardRow) (pd igd : PyStr) (r : StagingRow),
      transform_listing item card pd igd = some r →
        r.title_match_confidence =
          compute_title_match_confidence
            (card_name_match (normalize_title item.title) card.card_name)
            (card_number_match item.title card.card_number)
            (!(normalize_set_name card.set_name).isEmpty &&
              pyIn (normalize_set_name card.set_name) (normalize_title item.title)) ∧
        r.card_id = card.card_id ∧
        r.title_normalized = normalize_title item.title) ∧
    (∀ (items : List ItemSummary) (card : CardRow) (pd igd : PyStr),
      (transform_items items card pd igd).1.length +
        (transform_items items card pd igd).2 = items.length) := by
  refine ⟨?_, ?_, ?_⟩
  · intro item card pd igd
    rw [Option.isSome_iff_ne_none, ne_eq, transform_listing_none_iff]
    simp
  · intro item card pd igd r hr
    by_cases h : INLINE_NON_CARD_KEYWORDS.any (fun kw => pyIn kw (normalize_title item.title)) = true
    · rw [transform_listing, if_pos h] at hr
      cases hr
    · rw [transform_listing, if_neg h] at hr
      rw [← Option.some.inj hr]
      exact ⟨rfl, rfl, rfl⟩
  · intro items card pd igd
    have h := transform_step_count card pd igd items ([], 0)
    simpa [transform_items] using h

/-- Witness for C10: a clean listing title produces a retained row whose tier
evaluates to high. -/
theorem c10_reject_and_low_rows_retained_witness :
    ∃ r : StagingRow,
      transform_listing ⟨some (strCodes "v1|1"), strCodes "Pikachu 58/102 Jungle PSA 9"⟩
        ⟨strCodes "base1-58", strCodes "Pikachu", strCodes "58/102", strCodes "Jungle"⟩
        (strCodes "2025-01-05") (strCodes "2025-01-06") = some r ∧
      r.title_match_confidence = Confidence.high := by
  obtain ⟨r, hr⟩ : ∃ r,
      transform_listing ⟨some (strCodes "v1|1"), strCodes "Pikachu 58/102 Jungle PSA 9"⟩
        ⟨strCodes "base1-58", strCodes "Pikachu", strCodes "58/102", strCodes "Jungle"⟩
        (strCodes "2025-01-05") (strCodes "2025-01-06") = some r := by
    rw [← Option.isSome_iff_exists]
    exact (c10_reject_and_low_rows_retained.1 _ _ _ _).2 (by decide)
  refine ⟨r, hr, ?_⟩
  rw [(c10_reject_and_low_rows_retained.2.1 _ _ _ _ r hr).1]
  have hnum : card_number_match (strCodes "Pikachu 58/102 Jungle PSA 9") (strCodes "58/102") =
      some true := by decide
  have hname : card_name_match (normalize_title (strCodes "Pikachu 58/102 Jungle PSA 9"))
      (strCodes "Pikachu") = true := by
    rw [card_name_match]
    have h1 : normalize_card_name (strCodes "Pikachu") = strCodes "pikachu" := by
      simp [normalize_card_name, strCodes, subDescriptorTokens, isWordChar, DESCRIPTOR_TOKENS,
        subNonWord, lowerChar, removeDelta, collapseSpaces, collapseGo, stripChars, lstripChars,
        rstripChars, isSpaceChar]
    rw [h1]
    decide
  rw [hname, hnum]
  decide

/-!
## C2 and C3: dedup semantics and schema validation
-/

theorem find?_filter_of_imp {p q : FactRow → Bool} (l : List FactRow)
    (h : ∀ x, p x = true → q x = true) :
    (l.filter q).find? p = l.find? p := by
  induction l with
  | nil => rfl
  | cons x xs ih =>
    by_cases hq : q x = true
    · rw [List.filter_cons_of_pos hq]
      by_cases hp : p x = true
      · rw [List.find?_cons_of_pos _ hp, List.find?_cons_of_pos _ hp]
      · rw [List.find?_cons_of_neg _ (by simp [hp]), List.find?_cons_of_neg _ (by simp [hp])]
        exact ih
    · rw [List.filter_cons_of_neg (by simp [hq])]
      have hp : p x = false := by
        by_contra hc
        exact hq (h x (by simpa using hc))
      rw [List.find?_cons_of_neg _ (by simp [hp])]
      exact ih

theorem mem_dropDupFirst {s : FactRow} {l : List FactRow}
    (h : s ∈ dropDupFirst l) : s ∈ l := by
  induction l using dropDupFirst.induct with
  | case1 => rw [dropDupFirst] at h; cases h
  | case2 r rs ih =>
    rw [dropDupFirst] at h
    rcases List.mem_cons.1 h with h1 | h2
    · exact h1 ▸ List.mem_cons_self _ _
    · exact List.mem_cons_of_mem _ ((List.filter_sublist _).mem (ih h2))

theorem dropDupFirst_pairwise (l : List FactRow) :
    (dropDupFirst l).Pairwise (fun a b => factKey a ≠ factKey b) := by
  induction l using dropDupFirst.induct with
  | case1 => rw [dropDupFirst]; exact List.Pairwise.nil
  | case2 r rs ih =>
    rw [dropDupFirst]
    refine List.Pairwise.cons ?_ ih
    intro b hb
    have hbf := mem_dropDupFirst hb
    have := List.of_mem_filter hbf
    simp only [Bool.not_eq_true', beq_eq_false_iff_ne, ne_eq] at this
    exact fun he => this he.symm

theorem dropDupFirst_first {s : FactRow} {l : List FactRow}
    (h : s ∈ dropDupFirst l) :
    l.find? (fun x => factKey x == factKey s) = some s := by
  induction l using dropDupFirst.induct with
  | case1 => rw [dropDupFirst] at h; cases h
  | case2 r rs ih =>
    rw [dropDupFirst] at h
    rcases List.mem_cons.1 h with h1 | h2
    · subst h1
      exact List.find?_cons_of_pos _ (by simp)
    · have hne : factKey s ≠ factKey r := by
        have := List.of_mem_filter (mem_dropDupFirst h2)
        simpa using this
      rw [List.find?_cons_of_neg _ (by simpa using fun he => hne he.symm)]
      rw [← find?_filter_of_imp (p := fun x => factKey x == factKey s)
        (q := fun x => !(factKey x == factKey r)) rs
        (fun x hx => by
          simp only [beq_iff_eq] at hx
          simp [hx, hne])]
      exact ih h2

theorem dropDupFirst_covers {r : FactRow} {l : List FactRow} (h : r ∈ l) :
    ∃ s ∈ dropDupFirst l, factKey s = factKey r := by
  induction l using dropDupFirst.induct with
  | case1 => cases h
  | case2 x xs ih =>
    rcases List.mem_cons.1 h with h1 | h2
    · exact ⟨x, by rw [dropDupFirst]; exact List.mem_cons_self _ _, by rw [h1]⟩
    · by_cases hk : factKey r = factKey x
      · exact ⟨x, by rw [dropDupFirst]; exact List.mem_cons_self _ _, hk.symm⟩
      · have hmem : r ∈ xs.filter (fun y => !(factKey y == factKey x)) :=
          List.mem_filter.2 ⟨h2, by simpa using hk⟩
        obtain ⟨s, hs, hks⟩ := ih hmem
        exact ⟨s, by rw [dropDupFirst]; exact List.mem_cons_of_mem _ hs, hks⟩

theorem mem_mergeVariants_price_date {r : FactRow} {prices : List StagedPrice}
    {variants : List VariantRow} {snap : PyStr}
    (h : r ∈ mergeVariants prices variants snap) : r.price_date = snap := by
  rw [mergeVariants, List.mem_flatMap] at h
  obtain ⟨p, _, hr⟩ := h
  rcases List.mem_map.1 hr with ⟨v, _, hv⟩
  rw [← hv]

/-- C2 counterexample: two staged rows with the same
(card_id, variant, price_date) key and market prices 1 then 2 collapse to the
FIRST row (pandas `drop_duplicates` default `keep="first"`), not the last. -/
theorem c2_last_write_wins_counterexample :
    (transform_price_history
        [⟨strCodes "c1", strCodes "normal", strCodes "2025-01-01", 1, strCodes "2025-01-07"⟩,
         ⟨strCodes "c1", strCodes "normal", strCodes "2025-01-02", 2, strCodes "2025-01-07"⟩]
        [⟨strCodes "c1", strCodes "normal", 77⟩]
        (strCodes "2025-01-07")).map (fun r => r.market_price) = [1] ∧
    (transform_price_history
        [⟨strCodes "c1", strCodes "normal", strCodes "2025-01-01", 1, strCodes "2025-01-07"⟩,
         ⟨strCodes "c1", strCodes "normal", strCodes "2025-01-02", 2, strCodes "2025-01-07"⟩]
        [⟨strCodes "c1", strCodes "normal", 77⟩]
        (strCodes "2025-01-07")).map (fun r => r.market_price) ≠ [2] := by
  have h1 : mergeVariants
      [⟨strCodes "c1", strCodes "normal", strCodes "2025-01-01", 1, strCodes "2025-01-07"⟩,
       ⟨strCodes "c1", strCodes "normal", strCodes "2025-01-02", 2, strCodes "2025-01-07"⟩]
      [⟨strCodes "c1", strCodes "normal", 77⟩] (strCodes "2025-01-07") =
      [⟨strCodes "c1", 77, strCodes "2025-01-07", strCodes "2025-01-01", 1, strCodes "2025-01-07"⟩,
       ⟨strCodes "c1", 77, strCodes "2025-01-07", strCodes "2025-01-02", 2, strCodes "2025-01-07"⟩] := by
    rfl
  have h2 : transform_price_history
      [⟨strCodes "c1", strCodes "normal", strCodes "2025-01-01", 1, strCodes "2025-01-07"⟩,
       ⟨strCodes "c1", strCodes "normal", strCodes "2025-01-02", 2, strCodes "2025-01-07"⟩]
      [⟨strCodes "c1", strCodes "normal", 77⟩] (strCodes "2025-01-07") =
      [⟨strCodes "c1", 77, strCodes "2025-01-07", strCodes "2025-01-01", 1, strCodes "2025-01-07"⟩] := by
    rw [transform_price_history, h1, dropDupFirst]
    rw [show ([⟨strCodes "c1", 77, strCodes "2025-01-07", strCodes "2025-01-02", 2,
        strCodes "2025-01-07"⟩] : List FactRow).filter
        (fun x => !(factKey x == factKey ⟨strCodes "c1", 77, strCodes "2025-01-07",
          strCodes "2025-01-01", 1, strCodes "2025-01-07"⟩)) = [] from rfl]
    rw [dropDupFirst]
  rw [h2]
  exact ⟨rfl, by decide⟩

/-- C2 (amended): within one run duplicate keys are collapsed — the output has
pairwise-distinct (card_id, variant_id, price_date) keys, every merged input
key is represented, and the surviving row for each key is the FIRST-occurring
row of the merged frame for that key (pandas `keep="first"`), not the last;
all rows carry the run's snapshot price_date. -/
theorem c2_dedup_first_write_wins_amended :
    ∀ (prices : List StagedPrice) (variants : List VariantRow) (snap : PyStr),
      (transform_price_history prices variants snap).Pairwise
        (fun a b => factKey a ≠ factKey b) ∧
      ((transform_price_history prices variants snap).all
        (fun s => (mergeVariants prices variants snap).find?
          (fun x => factKey x == factKey s) == some s)) = true ∧
      ((mergeVariants prices variants snap).all
        (fun r => (transform_price_history prices variants snap).any
          (fun s => factKey s == factKey r))) = true ∧
      ((transform_price_history prices variants snap).all
        (fun s => s.price_date == snap)) = true := by
  intro prices variants snap
  refine ⟨dropDupFirst_pairwise _, ?_, ?_, ?_⟩
  · rw [List.all_eq_true]
    intro s hs
    rw [beq_iff_eq]
    exact dropDupFirst_first hs
  · rw [List.all_eq_true]
    intro r hr
    obtain ⟨s, hs, hk⟩ := dropDupFirst_covers hr
    exact List.any_eq_true.2 ⟨s, hs, beq_iff_eq.2 hk⟩
  · rw [List.all_eq_true]
    intro s hs
    exact beq_iff_eq.2 (mem_mergeVariants_price_date (mem_dropDupFirst hs))

theorem filter_not_contains_nil_iff (xs ys : List PyStr) :
    (xs.filter (fun c => !ys.contains c) = []) ↔ xs.all (fun c => ys.contains c) = true := by
  rw [List.filter_eq_nil_iff, List.all_eq_true]
  constructor
  · intro h c hc
    have := h c hc
    simpa using this
  · intro h c hc
    rw [h c hc]
    simp

theorem validate_schema_ok_iff (df : DataFrame) (schema : Schema) :
    validate_schema df schema = Except.ok () ↔
      sameColumnSet (df.map Prod.fst) (schema.map Prod.fst) = true := by
  rw [validate_schema, sameColumnSet]
  by_cases h1 : (schema.map Prod.fst).filter (fun c => !(df.map Prod.fst).contains c) = []
  · rw [if_neg (by simpa using h1)]
    by_cases h2 : (df.map Prod.fst).filter (fun c => !(schema.map Prod.fst).contains c) = []
    · rw [if_neg (by simpa using h2)]
      rw [filter_not_contains_nil_iff] at h1 h2
      exact iff_of_true rfl (by rw [Bool.and_eq_true]; exact ⟨h2, h1⟩)
    · rw [if_pos (by simpa using h2)]
      refine iff_of_false (by simp) ?_
      rw [Bool.and_eq_true]
      rintro ⟨hdf, _⟩
      rw [← filter_not_contains_nil_iff] at hdf
      exact h2 hdf
  · rw [if_pos (by simpa using h1)]
    refine iff_of_false (by simp) ?_
    rw [Bool.and_eq_true]
    rintro ⟨_, hexp⟩
    rw [← filter_not_contains_nil_iff] at hexp
    exact h1 hexp

theorem fact_frame_columns (rows : List FactRow) :
    (fact_frame rows).map Prod.fst = FACT_COLUMNS := rfl

/-- C3 counterexample: a frame whose single declared-non-nullable column
consists of one null passes `validate_schema` — the validator checks column
names only, never nulls. -/
theorem c3_nulls_not_checked_counterexample :
    validate_schema [(strCodes "a", [none])] [(strCodes "a", false)] = Except.ok () ∧
      hasNullInNonNullable [(strCodes "a", [none])] [(strCodes "a", false)] = true := by
  exact ⟨rfl, rfl⟩

/-- C3 (amended): schema validation runs before the write and fails exactly
when the output column set differs from the schema's declared columns (any
missing or any extra column); nulls in declared non-nullable columns are NOT
checked.  When validation fails the step aborts with nothing persisted. -/
theorem c3_schema_validation_amended :
    (∀ (df : DataFrame) (schema : Schema),
      validate_schema df schema = Except.ok () ↔
        sameColumnSet (df.map Prod.fst) (schema.map Prod.fst) = true) ∧
    (∀ (prices : List StagedPrice) (variants : List VariantRow)
        (schema : Schema) (snap : PyStr),
      price_history_main prices variants schema snap =
          Except.ok (transform_price_history prices variants snap) ↔
        sameColumnSet FACT_COLUMNS (schema.map Prod.fst) = true) ∧
    (∀ (prices : List StagedPrice) (variants : List VariantRow)
        (schema : Schema) (snap : PyStr),
      sameColumnSet FACT_COLUMNS (schema.map Prod.fst) = false →
        ∃ e, price_history_main prices variants schema snap = Except.error e) := by
  refine ⟨validate_schema_ok_iff, ?_, ?_⟩
  · intro prices variants schema snap
    have hiff := validate_schema_ok_iff
      (fact_frame (transform_price_history prices variants snap)) schema
    rw [fact_frame_columns] at hiff
    rcases hv : validate_schema
        (fact_frame (transform_price_history prices variants snap)) schema with e | u
    · rw [price_history_main]
      rw [hv]
      simp only [reduceCtorEq, false_iff]
      rw [hv] at hiff
      intro hc
      exact absurd (hiff.2 hc) (by simp)
    · cases u
      rw [price_history_main, hv]
      rw [hv] at hiff
      simpa using hiff.1 rfl
  · intro prices variants schema snap hfail
    have hiff := validate_schema_ok_iff
      (fact_frame (transform_price_history prices variants snap)) schema
    rw [fact_frame_columns] at hiff
    rcases hv : validate_schema
        (fact_frame (transform_price_history prices variants snap)) schema with e | u
    · exact ⟨e, by rw [price_history_main, hv]⟩
    · cases u
      rw [hv] at hiff
      rw [hiff.1 rfl] at hfail
      cases hfail

/-- Witness for C3 (amended): an empty schema mismatches the fact columns and
the build step aborts. -/
theorem c3_schema_validation_amended_witness :
    sameColumnSet FACT_COLUMNS (([] : Schema).map Prod.fst) = false ∧
      ∃ e, price_history_main [] [] ([] : Schema) [] = Except.error e :=
  ⟨by decide, c3_schema_validation_amended.2.2 [] [] [] [] (by decide)⟩

theorem filter_singleton_pos {γ : Type} {p : γ → Bool} {r : γ} (h : p r = true) :
    List.filter p [r] = [r] := by
  rw [List.filter_cons_of_pos h, List.filter_nil]

theorem filter_singleton_neg {γ : Type} {p : γ → Bool} {r : γ} (h : p r = false) :
    List.filter p [r] = [] := by
  rw [List.filter_cons_of_neg (by simp [h]), List.filter_nil]

theorem fetch_loop_invariant {α β : Type} (search : Nat → Nat → Page α β)
    (ps mr : Nat) (hAtMost : ∀ l o, (search l o).items.length ≤ l) :
    ∀ (fuel offset : Nat) (acc : List α) (meta : Option β) (trace : List PageReq),
      acc.length ≤ mr →
      ∃ Δ : List PageReq,
        (fetch_loop search ps mr fuel offset acc meta trace).2.2 = trace ++ Δ ∧
        Δ.length ≤ fuel ∧
        (∀ r ∈ Δ, offset ≤ r.offset ∧ acc.length ≤ r.accBefore ∧
          r.limit = min ps (mr - r.accBefore) ∧ r.accBefore < mr) ∧
        (Δ.map PageReq.offset).Pairwise (· < ·) ∧
        (∀ r, Δ.head? = some r → r.offset = offset ∧ r.accBefore = acc.length) ∧
        List.Chain' (fun r1 r2 =>
          (search r1.limit r1.offset).items.length = r1.limit ∧
          (search r1.limit r1.offset).items ≠ [] ∧
          r2.offset = r1.offset + r1.limit ∧
          r2.accBefore = r1.accBefore + r1.limit) Δ ∧
        (fetch_loop search ps mr fuel offset acc meta trace).1 =
          acc ++ (Δ.map (fun r => (search r.limit r.offset).items)).flatten ∧
        (fetch_loop search ps mr fuel offset acc meta trace).1.length ≤ mr ∧
        (fetch_loop search ps mr fuel offset acc meta trace).2.1 =
          ((Δ.filter (fun r => !(search r.limit r.offset).items.isEmpty)).getLast?.map
            (fun r => (search r.limit r.offset).meta)).or meta := by
  intro fuel
  induction fuel with
  | zero =>
    intro offset acc meta trace hacc
    exact ⟨[], by simp [fetch_loop], by simp, by simp, by simp, by simp, by simp,
      by simp [fetch_loop], by simpa [fetch_loop], by simp [fetch_loop, Option.or]⟩
  | succ fuel ih =>
    intro offset acc meta trace hacc
    by_cases hlt : acc.length < mr
    · by_cases hempty : (search (min ps (mr - acc.length)) offset).items.isEmpty = true
      · have hstep : fetch_loop search ps mr (fuel + 1) offset acc meta trace =
            (acc, meta, trace ++ [⟨offset, min ps (mr - acc.length), acc.length⟩]) := by
          simp only [fetch_loop]
          rw [if_pos hlt, if_pos hempty]
        have hgf : (fun r : PageReq => !(search r.limit r.offset).items.isEmpty)
            ⟨offset, min ps (mr - acc.length), acc.length⟩ = false := by
          simpa using hempty
        refine ⟨[⟨offset, min ps (mr - acc.length), acc.length⟩], by rw [hstep], by simp,
          ?_, by simp, ?_, List.chain'_singleton _, ?_, ?_, ?_⟩
        · intro r hr
          rcases List.mem_singleton.1 hr with rfl
          exact ⟨le_refl _, le_refl _, rfl, hlt⟩
        · intro r hr
          cases Option.some.inj hr
          exact ⟨rfl, rfl⟩
        · rw [hstep]
          have : (search (min ps (mr - acc.length)) offset).items = [] :=
            List.isEmpty_iff.1 hempty
          simp [this]
        · rw [hstep]
          exact hacc
        · rw [hstep]
          rw [ filter_singleton_neg (p := fun r : PageReq =>
            !(search r.limit r.offset).items.isEmpty) hgf]
          simp [Option.or]
      · by_cases hshort : (search (min ps (mr - acc.length)) offset).items.length <
            min ps (mr - acc.length)
        · have hstep : fetch_loop search ps mr (fuel + 1) offset acc meta trace =
              (acc ++ (search (min ps (mr - acc.length)) offset).items,
                some (search (min ps (mr - acc.length)) offset).meta,
                trace ++ [⟨offset, min ps (mr - acc.length), acc.length⟩]) := by
            simp only [fetch_loop]
            rw [if_pos hlt, if_neg hempty, if_pos hshort]
          have hgt : (fun r : PageReq => !(search r.limit r.offset).items.isEmpty)
              ⟨offset, min ps (mr - acc.length), acc.length⟩ = true := by
            simpa using hempty
          refine ⟨[⟨offset, min ps (mr - acc.length), acc.length⟩], by rw [hstep], by simp,
            ?_, by simp, ?_, List.chain'_singleton _, ?_, ?_, ?_⟩
          · intro r hr
            rcases List.mem_singleton.1 hr with rfl
            exact ⟨le_refl _, le_refl _, rfl, hlt⟩
          · intro r hr
            cases Option.some.inj hr
            exact ⟨rfl, rfl⟩
          · rw [hstep]
            simp
          · rw [hstep]
            have h1 := hAtMost (min ps (mr - acc.length)) offset
            have h2 : min ps (mr - acc.length) ≤ mr - acc.length := Nat.min_le_right _ _
            simp only [List.length_append]
            omega
          · rw [hstep]
            rw [ filter_singleton_pos (p := fun r : PageReq =>
              !(search r.limit r.offset).items.isEmpty) hgt]
            simp [Option.or]
        · have hstep : fetch_loop search ps mr (fuel + 1) offset acc meta trace =
              fetch_loop search ps mr fuel
                (offset + (search (min ps (mr - acc.length)) offset).items.length)
                (acc ++ (search (min ps (mr - acc.length)) offset).items)
                (some (search (min ps (mr - acc.length)) offset).meta)
                (trace ++ [⟨offset, min ps (mr - acc.length), acc.length⟩]) := by
            simp only [fetch_loop]
            rw [if_pos hlt, if_neg hempty, if_neg hshort]
          have hne : (search (min ps (mr - acc.length)) offset).items ≠ [] := by
            simpa [List.isEmpty_iff] using hempty
          have hgt : (fun r : PageReq => !(search r.limit r.offset).items.isEmpty)
              ⟨offset, min ps (mr - acc.length), acc.length⟩ = true := by
            simpa using hempty
          have hlen1 : 1 ≤ (search (min ps (mr - acc.length)) offset).items.length :=
            List.length_pos.2 hne
          have heq : (search (min ps (mr - acc.length)) offset).items.length =
              min ps (mr - acc.length) :=
            Nat.le_antisymm (hAtMost _ _) (Nat.not_lt.1 hshort)
          have hacc2 : (acc ++ (search (min ps (mr - acc.length)) offset).items).length ≤ mr := by
            have h2 : min ps (mr - acc.length) ≤ mr - acc.length := Nat.min_le_right _ _
            have h1 := hAtMost (min ps (mr - acc.length)) offset
            simp only [List.length_append]
            omega
          obtain ⟨Δ2, htr, hlenΔ, hbounds, hpair, hhead, hchain, hitems, hlenres, hmeta⟩ :=
            ih (offset + (search (min ps (mr - acc.length)) offset).items.length)
              (acc ++ (search (min ps (mr - acc.length)) offset).items)
              (some (search (min ps (mr - acc.length)) offset).meta)
              (trace ++ [⟨offset, min ps (mr - acc.length), acc.length⟩]) hacc2
          refine ⟨⟨offset, min ps (mr - acc.length), acc.length⟩ :: Δ2, ?_, ?_, ?_, ?_, ?_,
            ?_, ?_, ?_, ?_⟩
          · rw [hstep, htr, List.append_assoc]
            rfl
          · simpa using hlenΔ
          · intro r hr
            rcases List.mem_cons.1 hr with rfl | hr2
            · exact ⟨le_refl _, le_refl _, rfl, hlt⟩
            · obtain ⟨hb1, hb2, hb3, hb4⟩ := hbounds r hr2
              refine ⟨by omega, ?_, hb3, hb4⟩
              simp only [List.length_append] at hb2
              omega
          · rw [List.map_cons, List.pairwise_cons]
            refine ⟨?_, hpair⟩
            intro b hb
            rcases List.mem_map.1 hb with ⟨r, hr, rfl⟩
            have := (hbounds r hr).1
            simp only []
            omega
          · intro r hr
            cases Option.some.inj hr
            exact ⟨rfl, rfl⟩
          · rw [List.chain'_cons']
            refine ⟨?_, hchain⟩
            intro y hy
            obtain ⟨hy1, hy2⟩ := hhead y hy
            refine ⟨heq, hne, ?_, ?_⟩
            · rw [hy1, heq]
            · rw [hy2]
              simp only [List.length_append]
              rw [heq]
          · rw [hstep, hitems]
            simp [List.append_assoc]
          · rw [hstep]
            exact hlenres
          · rw [hstep, hmeta]
            rw [List.filter_cons_of_pos (p := fun r : PageReq =>
              !(search r.limit r.offset).items.isEmpty) hgt, List.getLast?_cons]
            cases hl : (Δ2.filter
                (fun r => !(search r.limit r.offset).items.isEmpty)).getLast? with
            | none => simp [hl, Option.or]
            | some r => simp [hl, Option.or]
    · have hstep : fetch_loop search ps mr (fuel + 1) offset acc meta trace =
          (acc, meta, trace) := by
        simp only [fetch_loop]
        rw [if_neg hlt]
      exact ⟨[], by simp [hstep], by simp, by simp, by simp, by simp, by simp,
        by simp [hstep], by simpa [hstep], by simp [hstep, Option.or]⟩

/-- C5 counterexample: when a full page is followed by an empty page, the
empty page is the last page fetched but its non-item metadata is discarded —
the envelope keeps the metadata of the last page that returned items, not of
the last fetched page. -/
theorem c5_last_page_metadata_counterexample :
    (fetch_all_items_for_query
        (fun _ o => if o = 0 then ({ items := [10, 20], meta := 0 } : Page Nat Nat)
          else { items := [], meta := 1 }) 2 4 5) =
      ([10, 20], some 0, [⟨0, 2, 0⟩, ⟨2, 2, 2⟩]) ∧
    ((fun (_ o : Nat) => if o = 0 then ({ items := [10, 20], meta := 0 } : Page Nat Nat)
        else { items := [], meta := 1 }) 2 2).meta = 1 ∧
    (fetch_all_items_for_query
        (fun _ o => if o = 0 then ({ items := [10, 20], meta := 0 } : Page Nat Nat)
          else { items := [], meta := 1 }) 2 4 5).2.1 ≠ some 1 := by
  refine ⟨by decide, by decide, by decide⟩

/-- C5 (amended): under the assumption that every page returns at most the
requested number of items, `fetch_all_items_for_query` issues at most
`max_pages` requests with strictly increasing offsets, each request asking for
`min(page_size, max_results - accumulated)` items of an accumulation below
`max_results`; the envelope's item list is the concatenation of the fetched
pages' item lists in fetch order and never exceeds `max_results`; every
non-final request returned a full, nonempty page (the loop stops as soon as a
stop condition holds); and the envelope's metadata is that of the last page
that returned items (not of the last fetched page), `none` when no page ever
returned items. -/
theorem c5_pagination_amended {α β : Type} (search : Nat → Nat → Page α β)
    (page_size max_results max_pages : Nat)
    (hAtMost : ∀ l o, (search l o).items.length ≤ l) :
    ((fetch_all_items_for_query search page_size max_results max_pages).2.2).length ≤
        max_pages ∧
    (((fetch_all_items_for_query search page_size max_results max_pages).2.2).map
      PageReq.offset).Pairwise (· < ·) ∧
    (∀ r ∈ (fetch_all_items_for_query search page_size max_results max_pages).2.2,
      r.limit = min page_size (max_results - r.accBefore) ∧ r.accBefore < max_results) ∧
    (fetch_all_items_for_query search page_size max_results max_pages).1 =
      (((fetch_all_items_for_query search page_size max_results max_pages).2.2).map
        (fun r => (search r.limit r.offset).items)).flatten ∧
    (fetch_all_items_for_query search page_size max_results max_pages).1.length ≤
      max_results ∧
    List.Chain' (fun r1 r2 =>
      (search r1.limit r1.offset).items.length = r1.limit ∧
      (search r1.limit r1.offset).items ≠ [] ∧
      r2.offset = r1.offset + r1.limit ∧
      r2.accBefore = r1.accBefore + r1.limit)
      (fetch_all_items_for_query search page_size max_results max_pages).2.2 ∧
    (fetch_all_items_for_query search page_size max_results max_pages).2.1 =
      (((fetch_all_items_for_query search page_size max_results max_pages).2.2).filter
        (fun r => !(search r.limit r.offset).items.isEmpty)).getLast?.map
          (fun r => (search r.limit r.offset).meta) := by
  obtain ⟨Δ, htr, hlen, hbounds, hpair, _, hchain, hitems, hlenres, hmeta⟩ :=
    fetch_loop_invariant search page_size max_results hAtMost max_pages 0 [] none []
      (by simp)
  rw [fetch_all_items_for_query] at *
  rw [List.nil_append] at htr
  rw [htr]
  refine ⟨hlen, hpair, ?_, ?_, hlenres, hchain, ?_⟩
  · intro r hr
    exact ⟨(hbounds r hr).2.2.1, (hbounds r hr).2.2.2⟩
  · rw [hitems]
    simp
  · rw [hmeta]
    cases (List.filter (fun r => !(search r.limit r.offset).items.isEmpty) Δ).getLast?.map
      (fun r => (search r.limit r.offset).meta) <;> rfl

/-- Witness for C5 (amended) with a client that always fills its pages. -/
theorem c5_pagination_amended_witness :
    ((fetch_all_items_for_query
      (fun l _ => ({ items := List.replicate l 7, meta := 0 } : Page Nat Nat))
      2 5 10).2.2).length ≤ 10 :=
  (c5_pagination_amended
    (fun l _ => ({ items := List.replicate l 7, meta := 0 } : Page Nat Nat))
    2 5 10 (fun l o => by simp)).1

theorem run_attempts_transient_prefix {α : Type} (resp : Nat → FetchResult α) :
    ∀ (budget attempt : Nat),
      (∀ k, attempt ≤ k → k < attempt + budget → isTransient (resp k) = true) →
      run_attempts resp budget attempt =
        { cards := [], done := false, failedPage := true, attempts := budget,
          waits := (List.range budget).map (fun i => backoff_wait (attempt + i)) } := by
  intro budget
  induction budget with
  | zero => intro attempt _; rfl
  | succ budget ih =>
    intro attempt htr
    have h0 : isTransient (resp attempt) = true := htr attempt (le_refl _) (by omega)
    have hrest := ih (attempt + 1) (fun k hk1 hk2 => htr k (by omega) (by omega))
    have hmap : (List.range (budget + 1)).map (fun i => backoff_wait (attempt + i)) =
        backoff_wait attempt ::
          (List.range budget).map (fun i => backoff_wait (attempt + 1 + i)) := by
      rw [List.range_succ_eq_map, List.map_cons, List.map_map, Nat.add_zero]
      congr 1
      exact List.map_congr_left (fun i _ => by
        simp only [Function.comp_apply, Nat.succ_eq_add_one]
        congr 1
        omega)
    cases hr : resp attempt with
    | ok cards =>
      rw [hr] at h0
      simp [isTransient] at h0
    | httpError s =>
      rw [hr] at h0
      simp only [isTransient, decide_eq_true_eq] at h0
      simp only [run_attempts, hr]
      rw [if_pos h0, hrest, hmap]
    | networkError =>
      simp only [run_attempts, hr]
      rw [hrest, hmap]

theorem run_attempts_success {α : Type} (resp : Nat → FetchResult α) :
    ∀ (j budget attempt : Nat) (cards : List α), j < budget →
      (∀ k, attempt ≤ k → k < attempt + j → isTransient (resp k) = true) →
      resp (attempt + j) = FetchResult.ok cards → cards ≠ [] →
      run_attempts resp budget attempt =
        { cards := cards, done := false, failedPage := false, attempts := j + 1,
          waits := (List.range j).map (fun i => backoff_wait (attempt + i)) } := by
  intro j
  induction j with
  | zero =>
    intro budget attempt cards hj _ hok hne
    obtain ⟨b, rfl⟩ : ∃ b, budget = b + 1 := ⟨budget - 1, by omega⟩
    rw [Nat.add_zero] at hok
    cases cards with
    | nil => exact absurd rfl hne
    | cons c cs =>
      simp only [run_attempts, hok]
      rfl
  | succ j ih =>
    intro budget attempt cards hj htr hok hne
    obtain ⟨b, rfl⟩ : ∃ b, budget = b + 1 := ⟨budget - 1, by omega⟩
    have h0 : isTransient (resp attempt) = true := htr attempt (le_refl _) (by omega)
    have hrest := ih b (attempt + 1) cards (by omega)
      (fun k hk1 hk2 => htr k (by omega) (by omega))
      (by rw [show attempt + 1 + j = attempt + (j + 1) by omega]; exact hok) hne
    have hmap : (List.range (j + 1)).map (fun i => backoff_wait (attempt + i)) =
        backoff_wait attempt ::
          (List.range j).map (fun i => backoff_wait (attempt + 1 + i)) := by
      rw [List.range_succ_eq_map, List.map_cons, List.map_map, Nat.add_zero]
      congr 1
      exact List.map_congr_left (fun i _ => by
        simp only [Function.comp_apply, Nat.succ_eq_add_one]
        congr 1
        omega)
    cases hr : resp attempt with
    | ok cards2 =>
      rw [hr] at h0
      simp [isTransient] at h0
    | httpError s =>
      rw [hr] at h0
      simp only [isTransient, decide_eq_true_eq] at h0
      simp only [run_attempts, hr]
      rw [if_pos h0, hrest, hmap]
    | networkError =>
      simp only [run_attempts, hr]
      rw [hrest, hmap]

/-- C6: transient failures (status 504/429/404 or a network error) are retried
up to the 5-attempt budget with strictly increasing backoff before the page is
recorded as failed; a non-transient HTTP failure is recorded immediately
without a retry; and in both ingest loops a failed page or item never stops
the run — the next page or card is still processed. -/
theorem c6_retry_and_continue {α κ ε ρ : Type} :
    (∀ i j : Nat, i < j → backoff_wait i < backoff_wait j) ∧
    (∀ (resp : Nat → FetchResult α) (s : Nat),
      ¬(s = 504 ∨ s = 429 ∨ s = 404) → resp 0 = FetchResult.httpError s →
      fetch_page resp =
        { cards := [], done := false, failedPage := true, attempts := 1, waits := [] }) ∧
    (∀ resp : Nat → FetchResult α,
      (∀ k, k < 5 → isTransient (resp k) = true) →
      fetch_page resp =
        { cards := [], done := false, failedPage := true, attempts := 5,
          waits := [5, 10, 15, 20, 25] }) ∧
    (∀ (resp : Nat → FetchResult α) (j : Nat) (cards : List α),
      j < 5 → (∀ k, k < j → isTransient (resp k) = true) →
      resp j = FetchResult.ok cards → cards ≠ [] →
      fetch_page resp =
        { cards := cards, done := false, failedPage := false, attempts := j + 1,
          waits := (List.range j).map backoff_wait }) ∧
    (∀ (resp2 : Nat → Nat → FetchResult α) (fuel page : Nat)
        (acc : List α) (failed : List Nat),
      (fetch_page (resp2 page)).done = false →
      ingest_run resp2 (fuel + 1) page acc failed =
        ingest_run resp2 fuel (page + 1) (acc ++ (fetch_page (resp2 page)).cards)
          (if (fetch_page (resp2 page)).failedPage then failed ++ [page] else failed)) ∧
    (∀ (process : κ → Except ε ρ) (cards : List κ),
      (ebay_main_loop process cards).1 + (ebay_main_loop process cards).2.1 =
          cards.length ∧
      (ebay_main_loop process cards).2.2 =
        cards.filterMap (fun c => (process c).toOption)) := by
  refine ⟨?_, ?_, ?_, ?_, ?_, ?_⟩
  · intro i j hij
    simp only [backoff_wait]
    omega
  · intro resp s hs hr0
    rw [fetch_page]
    simp only [run_attempts, hr0]
    rw [if_neg hs]
  · intro resp h
    rw [fetch_page, run_attempts_transient_prefix resp 5 0 (fun k hk1 hk2 => h k (by omega))]
    norm_num [List.range_succ, backoff_wait]
  · intro resp j cards hj htr hok hne
    rw [fetch_page, run_attempts_success resp j 5 0 cards hj
      (fun k hk1 hk2 => htr k (by omega)) (by simpa using hok) hne]
    congr 1
    exact List.map_congr_left (fun i _ => by rw [Nat.zero_add])
  · intro resp2 fuel page acc failed hdone
    simp only [ingest_run]
    rw [if_neg (by simp [hdone])]
  · intro process cards
    induction cards with
    | nil => exact ⟨rfl, rfl⟩
    | cons c cs ih =>
      cases hpc : process c with
      | ok r =>
        simp only [ebay_main_loop, hpc, List.filterMap_cons, List.length_cons,
          show (Except.ok r : Except ε ρ).toOption = some r from rfl]
        exact ⟨by omega, by rw [ih.2]⟩
      | error e =>
        simp only [ebay_main_loop, hpc, List.filterMap_cons, List.length_cons,
          show (Except.error e : Except ε ρ).toOption = (none : Option ρ) from rfl]
        exact ⟨by omega, by rw [ih.2]⟩

/-- Witness for C6: a permanent HTTP 500 on the first attempt is recorded
failed after exactly one attempt with no backoff. -/
theorem c6_retry_and_continue_witness :
    fetch_page (fun _ => (FetchResult.httpError 500 : FetchResult Nat)) =
      { cards := [], done := false, failedPage := true, attempts := 1, waits := [] } :=
  (c6_retry_and_continue (α := Nat) (κ := Nat) (ε := Nat) (ρ := Nat)).2.1
    (fun _ => FetchResult.httpError 500) 500 (by decide) rfl

set_option maxRecDepth 10000 in
example : sha1_digest_nat (utf8Encode (strCodes "abc")) =
    0xa9993e364706816aba3e25717850c26c9cd0d89d := by decide

set_option maxRecDepth 10000 in
example : deterministic_bigint_hash (strCodes "base1-58") (strCodes "normal") =
    404201925177651943 := by decide

theorem parseHex_foldl (b : List Nat) :
    ∀ acc, b.foldl (fun acc c => 16 * acc + hexVal c) acc =
      acc * 16 ^ b.length + parseHex b := by
  induction b with
  | nil => intro acc; simp [parseHex]
  | cons c cs ih =>
    intro acc
    rw [List.foldl_cons, ih]
    have h2 : parseHex (c :: cs) = (16 * 0 + hexVal c) * 16 ^ cs.length + parseHex cs := by
      rw [parseHex, List.foldl_cons, ih]
    rw [h2, List.length_cons, pow_succ]
    ring

theorem parseHex_append (a b : List Nat) :
    parseHex (a ++ b) = parseHex a * 16 ^ b.length + parseHex b := by
  rw [parseHex, List.foldl_append, ← parseHex, parseHex_foldl]

theorem hexVal_hexDigitChar : ∀ d, d < 16 → hexVal (hexDigitChar d) = d := by decide

theorem parseHex_wordToHex (w : Nat) : parseHex (wordToHex w) = w % 4294967296 := by
  have hm : ∀ k : Nat, (w >>> k) % 16 < 16 := fun k => Nat.mod_lt _ (by norm_num)
  have hm0 : w % 16 < 16 := Nat.mod_lt _ (by norm_num)
  simp only [wordToHex, parseHex, List.foldl_cons, List.foldl_nil]
  rw [hexVal_hexDigitChar _ (hm 28), hexVal_hexDigitChar _ (hm 24),
    hexVal_hexDigitChar _ (hm 20), hexVal_hexDigitChar _ (hm 16),
    hexVal_hexDigitChar _ (hm 12), hexVal_hexDigitChar _ (hm 8),
    hexVal_hexDigitChar _ (hm 4), hexVal_hexDigitChar _ hm0]
  simp only [Nat.shiftRight_eq_div_pow]
  norm_num
  omega

theorem sha1_compress_lt (h : SHA1State) (chunk : List Nat) :
    (sha1_compress h chunk).a < 4294967296 ∧ (sha1_compress h chunk).b < 4294967296 ∧
    (sha1_compress h chunk).c < 4294967296 ∧ (sha1_compress h chunk).d < 4294967296 ∧
    (sha1_compress h chunk).e < 4294967296 := by
  simp only [sha1_compress, w32]
  refine ⟨Nat.mod_lt _ (by norm_num), Nat.mod_lt _ (by norm_num),
    Nat.mod_lt _ (by norm_num), Nat.mod_lt _ (by norm_num), Nat.mod_lt _ (by norm_num)⟩

theorem foldl_compress_lt (chunks : List (List Nat)) :
    ∀ h : SHA1State,
      h.a < 4294967296 ∧ h.b < 4294967296 ∧ h.c < 4294967296 ∧
        h.d < 4294967296 ∧ h.e < 4294967296 →
      (chunks.foldl sha1_compress h).a < 4294967296 ∧
      (chunks.foldl sha1_compress h).b < 4294967296 ∧
      (chunks.foldl sha1_compress h).c < 4294967296 ∧
      (chunks.foldl sha1_compress h).d < 4294967296 ∧
      (chunks.foldl sha1_compress h).e < 4294967296 := by
  induction chunks with
  | nil => intro h hh; exact hh
  | cons c cs ih =>
    intro h _
    rw [List.foldl_cons]
    exact ih _ (sha1_compress_lt h c)

theorem parseHex_sha1_hexdigest (msg : List Nat) :
    parseHex (sha1_hexdigest msg) = sha1_digest_nat msg := by
  obtain ⟨ha, hb, hc, hd, he⟩ :=
    foldl_compress_lt (chunks64 (sha1_pad msg)) SHA1_H0 (by norm_num [SHA1_H0])
  rw [sha1_hexdigest, sha1_digest_nat]
  rw [parseHex_append, parseHex_append, parseHex_append, parseHex_append]
  rw [parseHex_wordToHex, parseHex_wordToHex, parseHex_wordToHex, parseHex_wordToHex,
    parseHex_wordToHex]
  rw [Nat.mod_eq_of_lt ha, Nat.mod_eq_of_lt hb, Nat.mod_eq_of_lt hc,
    Nat.mod_eq_of_lt hd, Nat.mod_eq_of_lt he]
  simp only [List.length_append, show ∀ w, (wordToHex w).length = 8 from fun w => rfl]
  norm_num

/-- C7: `deterministic_bigint_hash` agrees with the reference definition —
the SHA-1 digest of the UTF-8 bytes of `card_id`, the separator "|", and
`variant_type`, read as a hexadecimal integer and reduced modulo `10^18`; it
is a pure function (identical inputs give the identical integer) and its
result always lies below `10^18`. -/
theorem c7_deterministic_bigint_hash_spec :
    ∀ (card_id variant_type : PyStr),
      deterministic_bigint_hash card_id variant_type =
        reference_variant_id card_id variant_type ∧
      deterministic_bigint_hash card_id variant_type =
        deterministic_bigint_hash card_id variant_type ∧
      deterministic_bigint_hash card_id variant_type < 10 ^ 18 := by
  intro c v
  have hmain : deterministic_bigint_hash c v =
      sha1_digest_nat (utf8Encode (c ++ strCodes "|" ++ v)) % 10 ^ 18 := by
    rw [deterministic_bigint_hash, parseHex_sha1_hexdigest]
  refine ⟨?_, rfl, ?_⟩
  · rw [hmain, reference_variant_id]
  · rw [hmain]
    exact Nat.mod_lt _ (by norm_num)

theorem filter_key_le_one {l : List (Nat × Nat)} (h : (l.map Prod.fst).Nodup) (k : Nat) :
    (l.filter (fun c => c.1 == k)).length ≤ 1 := by
  induction l with
  | nil => simp
  | cons c cs ih =>
    rw [List.map_cons, List.nodup_cons] at h
    by_cases hc : (c.1 == k) = true
    · rw [List.filter_cons_of_pos (p := fun x : Nat × Nat => x.1 == k) hc]
      have hnil : cs.filter (fun x => x.1 == k) = [] := by
        rw [List.filter_eq_nil_iff]
        intro x hx hxk
        apply h.1
        rw [beq_iff_eq] at hc hxk
        rw [hc, ← hxk]
        exact List.mem_map.2 ⟨x, hx, rfl⟩
      rw [hnil]
      simp
    · rw [List.filter_cons_of_neg (p := fun x : Nat × Nat => x.1 == k) hc]
      exact ih h.2

theorem attachMeta_map_fst {card_df : List (Nat × Nat)}
    (hm : ∀ k, (card_df.filter (fun c => c.1 == k)).length ≤ 1) (rows : List LeaderRow) :
    (attachMeta rows card_df).map Prod.fst = rows := by
  induction rows with
  | nil => rfl
  | cons r rs ih =>
    have hstep : attachMeta (r :: rs) card_df =
        (match card_df.filter (fun c => c.1 == r.card_id) with
          | [] => [(r, none)]
          | ms => ms.map (fun c => (r, some c.2))) ++ attachMeta rs card_df := by
      rw [attachMeta, attachMeta, List.flatMap_cons]
    rw [hstep, List.map_append, ih]
    cases hf : card_df.filter (fun c => c.1 == r.card_id) with
    | nil => rfl
    | cons m ms =>
      have hle := hm r.card_id
      rw [hf] at hle
      simp only [List.length_cons] at hle
      have hms : ms = [] := List.eq_nil_of_length_eq_zero (by omega)
      subst hms
      rfl

theorem groupMaxByCard_length (rows : List (Nat × Int)) :
    (groupMaxByCard rows).length = (rows.map Prod.fst).dedup.length := by
  rw [groupMaxByCard, List.length_map, List.length_mergeSort]

theorem rankedTop_length {agg : List (Nat × Int)} (h : 200 ≤ agg.length) :
    (rankedTop agg).length = 200 := by
  rw [rankedTop, List.length_map, List.enum_length, List.length_take, List.length_mergeSort]
  omega

theorem rankedTop_ranks {agg : List (Nat × Int)} (h : 200 ≤ agg.length) :
    (rankedTop agg).map LeaderRow.rank = List.range' 1 200 := by
  rw [rankedTop, List.map_map]
  have h1 : (LeaderRow.rank ∘ fun ir : Nat × (Nat × Int) =>
      LeaderRow.mk (ir.1 + 1) ir.2.1 ir.2.2) = fun ir => ir.1 + 1 := rfl
  rw [h1]
  have h2 : (fun ir : Nat × (Nat × Int) => ir.1 + 1) = (fun n => n + 1) ∘ Prod.fst := rfl
  rw [h2, ← List.map_map, List.enum_map_fst]
  have h3 : ((agg.mergeSort (fun a b => decide (b.2 ≤ a.2))).take 200).length = 200 := by
    rw [List.length_take, List.length_mergeSort]
    omega
  rw [h3, List.range'_eq_map_range]
  exact List.map_congr_left (fun i _ => by omega)

theorem rankedTop_pairwise (agg : List (Nat × Int)) :
    (rankedTop agg).Pairwise
      (fun p q : LeaderRow => q.max_market_price ≤ p.max_market_price) := by
  have hsorted : ((agg.mergeSort (fun a b => decide (b.2 ≤ a.2)))).Pairwise
      (fun a b : Nat × Int => b.2 ≤ a.2) := by
    have h := @List.sorted_mergeSort (Nat × Int)
      (fun a b : Nat × Int => decide (b.2 ≤ a.2))
      (fun a b c hab hbc => by
        simp only [decide_eq_true_eq] at *
        exact le_trans hbc hab)
      (fun a b => by
        simp only [Bool.or_eq_true, decide_eq_true_eq]
        exact le_total b.2 a.2)
      agg
    exact h.imp (fun hab => by simpa using hab)
  have htake := hsorted.sublist (List.take_sublist 200 _)
  have henum : (((agg.mergeSort (fun a b => decide (b.2 ≤ a.2))).take 200).enum).Pairwise
      (fun p q : Nat × (Nat × Int) => q.2.2 ≤ p.2.2) := by
    have hsnd := List.enum_map_snd ((agg.mergeSort (fun a b => decide (b.2 ≤ a.2))).take 200)
    have := (List.pairwise_map
      (f := (Prod.snd : Nat × (Nat × Int) → Nat × Int))
      (R := fun a b : Nat × Int => b.2 ≤ a.2)).1 (by rw [hsnd]; exact htake)
    exact this
  rw [rankedTop]
  exact (List.pairwise_map.2 (henum.imp (fun h => h)))

/-- C8: whenever the joined qualifying data holds at least 200 distinct
card_ids and the catalog's card_ids are unique, the leaderboard has exactly
200 rows, its ranks are exactly 1..200 in order, and `max_market_price` is
non-increasing as rank increases. -/
theorem c8_leaderboard_invariants (price_df : List PriceHist) (variant_ids : List Nat)
    (card_df : List (Nat × Nat))
    (hcat : (card_df.map Prod.fst).Nodup)
    (hcount : 200 ≤
      ((qualifying_rows price_df variant_ids card_df).map Prod.fst).dedup.length) :
    (build_weekly_top_tcg_cards price_df variant_ids card_df).length = 200 ∧
    (build_weekly_top_tcg_cards price_df variant_ids card_df).map (fun p => p.1.rank) =
      List.range' 1 200 ∧
    (build_weekly_top_tcg_cards price_df variant_ids card_df).Pairwise
      (fun p q => q.1.max_market_price ≤ p.1.max_market_price) := by
  have hagg : 200 ≤ (groupMaxByCard (qualifying_rows price_df variant_ids card_df)).length := by
    rw [groupMaxByCard_length]
    exact hcount
  have hfst := attachMeta_map_fst (filter_key_le_one hcat)
    (rankedTop (groupMaxByCard (qualifying_rows price_df variant_ids card_df)))
  refine ⟨?_, ?_, ?_⟩
  · have h1 : (build_weekly_top_tcg_cards price_df variant_ids card_df).length =
        ((build_weekly_top_tcg_cards price_df variant_ids card_df).map Prod.fst).length := by
      rw [List.length_map]
    rw [h1, build_weekly_top_tcg_cards, hfst, rankedTop_length hagg]
  · have h1 : (build_weekly_top_tcg_cards price_df variant_ids card_df).map
        (fun p => p.1.rank) =
        ((build_weekly_top_tcg_cards price_df variant_ids card_df).map Prod.fst).map
          LeaderRow.rank := by
      rw [List.map_map]
      rfl
    rw [h1, build_weekly_top_tcg_cards, hfst, rankedTop_ranks hagg]
  · have hpw := rankedTop_pairwise (groupMaxByCard (qualifying_rows price_df variant_ids card_df))
    rw [← hfst] at hpw
    rw [build_weekly_top_tcg_cards]
    exact List.pairwise_map.1 hpw

set_option maxRecDepth 40000 in
/-- Witness for C8: 200 distinct cards with one price each, a single variant
id, and a unique 200-card catalog. -/
theorem c8_leaderboard_invariants_witness :
    (build_weekly_top_tcg_cards
      ((List.range 200).map (fun i => (⟨i, 0, (i : Int)⟩ : PriceHist)))
      [0] ((List.range 200).map (fun i => (i, i)))).length = 200 :=
  (c8_leaderboard_invariants _ _ _ (by decide) (by decide)).1
